import Mathlib

/-!
# GoLinkedin: dedup / normalisation and the crawl engine

A shallow embedding of `internal/crawler` (files `export.go`, `engine.go`,
`scraper.go`, `types.go`, `selectors.go`), of the closures that
`internal/http/handlers.go` hands to the engine, and of the quota check of
`internal/storage/weekly_counter.go`.

Go strings are modelled as lists of Unicode code points (`Str`), i.e. as valid
UTF-8 strings.  The patterns the code searches for (`"?"`, `"/in/"`, `"/"`) are
ASCII, so searching code points and searching bytes agree on such strings.
-/

namespace GoLinkedin

/-- A Go `string`, as its sequence of code points. -/
abbrev Str := List Char

/-! ## The `strings` functions used by `export.go` -/

/-- Search for `sub` in `s`, `n` being the offset of `s` in the original string. -/
def IndexFrom (sub : Str) : Str → Nat → Int
  | [], n => if sub.isPrefixOf [] then (n : Int) else -1
  | c :: cs, n => if sub.isPrefixOf (c :: cs) then (n : Int) else IndexFrom sub cs (n + 1)

/-- Go `strings.Index(s, sub)`: the index of the first instance of `sub` in `s`,
or `-1` when `sub` is not present. -/
def Index (s sub : Str) : Int := IndexFrom sub s 0

/-- The loop of Go `strings.Split` for a non-empty separator; every round consumes
at least one code point, so `fuel = len(s) + 1` rounds are enough. -/
def SplitFuel : Nat → Str → Str → List Str
  | 0, s, _ => [s]
  | fuel + 1, s, sep =>
    let m := Index s sep
    if m < 0 then [s]
    else s.take m.toNat :: SplitFuel fuel (s.drop (m.toNat + sep.length)) sep

/-- Go `strings.Split(s, sep)` for a non-empty separator `sep`. -/
def Split (s sep : Str) : List Str := SplitFuel (s.length + 1) s sep

/-- Go `strings.Trim(s, cutset)`: `s` without its leading and trailing code
points contained in `cutset`. -/
def Trim (s cutset : Str) : Str :=
  (s.dropWhile (fun c => cutset.contains c)).rdropWhile (fun c => cutset.contains c)

/-- The ASCII fast path of Go `strings.ToLower` / `unicode.ToLower`: `A`..`Z` are
mapped to `a`..`z`; the table for the remaining code points (`unicode.ToLower`
of the standard library) is the parameter `ul`. -/
def toLowerRune (ul : Char → Char) (c : Char) : Char :=
  if c.val < 128 then (if 'A' ≤ c ∧ c ≤ 'Z' then Char.ofNat (c.toNat + 32) else c) else ul c

/-- Go `strings.ToLower(s)` on a valid UTF-8 string: every code point is mapped
to its lower case. -/
def ToLower (ul : Char → Char) (s : Str) : Str := s.map (toLowerRune ul)

/-! ## `types.go` -/

/-- The struct `Contact` of `types.go`. -/
structure Contact where
  Name : Str
  Title : Str
  Company : Str
  Location : Str
  LinkedIn : Str
  deriving DecidableEq, Repr

/-- The struct `RunConfig` of `types.go` (Go `int` fields as integers). -/
structure RunConfig where
  MaxCardsRead : Int
  MaxConnectsPerPage : Int
  Queries : List Str
  Headless : Bool

/-! ## `export.go` -/

/-- The function `NormalizeProfileURL` of `export.go`. -/
def NormalizeProfileURL (raw : Str) : Str :=
  if raw = [] then raw
  else
    let raw := (Split raw "?".toList).headD []
    let i := Index raw "/in/".toList
    if i = -1 then raw
    else raw.take (i + 4).toNat ++ Trim (raw.drop (i + 4).toNat) "/".toList

/-- The key `k` computed in the loop body of `RemoveDup`. -/
def dedupKey (ul : Char → Char) (c : Contact) : Str :=
  let k := ToLower ul c.LinkedIn
  if k = [] then ToLower ul (c.Name ++ "|".toList ++ c.Company) else k

/-- One iteration of the loop of `RemoveDup` on the state `(seen, out)`; the map
`seen` is represented by the list of keys set to `true`. -/
def RemoveDupStep (ul : Char → Char) (st : List Str × List Contact) (c : Contact) :
    List Str × List Contact :=
  let k := dedupKey ul c
  if k ≠ [] ∧ ¬ (k ∈ st.1) then (k :: st.1, st.2 ++ [c]) else st

/-- The function `RemoveDup` of `export.go`. -/
def RemoveDup (ul : Char → Char) (cs : List Contact) : List Contact :=
  (cs.foldl (RemoveDupStep ul) ([], [])).2

/-- Contacts of `cs` whose key is neither in `seen` nor carried by an earlier
contact of `cs` (proof device describing the loop of `RemoveDup`). -/
def keepFirst (key : Contact → Str) : List Str → List Contact → List Contact
  | _, [] => []
  | seen, c :: cs =>
    if key c ∈ seen then keepFirst key seen cs else c :: keepFirst key (key c :: seen) cs

/-! ## The browser and the callbacks

`engine.go` and `scraper.go` drive a browser through `chromedp`.  What the
browser answers is not decided by the repository, so every answer is an input
of the model: a run is a function of its configuration and of the answers the
browser gives.  The callbacks `OnLog`, `OnCaptured` and `OnInviteSent` are the
observable effects; a run yields the sequence of callback invocations. -/

/-- A Go `error` value. -/
structure GoError where
  msg : Str
  deriving DecidableEq, Repr

/-- The lines handed to `OnLog` by `engine.go`, one constructor per call site,
carrying the values of the format verbs. -/
inductive LogLine where
  | loggingIn
  | loginDone
  | waiting2FA
  | minimizing
  | minimizeFailed
  | headlessActive
  | processingQuery (i n : Int) (query : Str)
  | queryError (query : Str) (err : GoError)
  | openingSearch (query : Str)
  | searchOpened
  | startingCapture
  | countError (err : GoError)
  | foundProfiles (count : Int)
  | capturedCount (n : Int) (query : Str)
  | invitesSent (n : Int)
  | tryingConnect (company name : Str)
  | connectError (err : GoError)
  deriving DecidableEq, Repr

/-- The verb `%d` of `fmt.Sprintf` on an integer. -/
def itoa (n : Int) : Str := (toString n).toList

/-- The text of a log line, as built by the `fmt.Sprintf` call of its site. -/
def LogLine.render : LogLine → Str
  | .loggingIn => "Fazendo login no LinkedIn...".toList
  | .loginDone => "Login realizado com sucesso".toList
  | .waiting2FA => "Aguardando 2FA manual... (8 segundos)".toList
  | .minimizing => "Minimizando navegador para execução em background...".toList
  | .minimizeFailed => "Aviso: não foi possível minimizar o navegador".toList
  | .headlessActive => "Modo headless ativo - navegador já está oculto".toList
  | .processingQuery i n q =>
    "=== Processando query ".toList ++ itoa i ++ "/".toList ++ itoa n ++ ": ".toList ++ q
      ++ " ===".toList
  | .queryError q err =>
    "Erro ao processar query ".toList ++ [Char.ofNat 39] ++ q ++ [Char.ofNat 39] ++ ": ".toList
      ++ err.msg
  | .openingSearch q => "Abrindo busca: ".toList ++ q
  | .searchOpened => "Busca aberta com sucesso".toList
  | .startingCapture => "Iniciando captura de perfis visíveis...".toList
  | .countError err => "Erro ao contar perfis: ".toList ++ err.msg
  | .foundProfiles count => "Encontrados ".toList ++ itoa count ++ " perfis visíveis".toList
  | .capturedCount n q =>
    "Capturados ".toList ++ itoa n ++ " perfis para ".toList ++ [Char.ofNat 39] ++ q
      ++ [Char.ofNat 39]
  | .invitesSent n => "Convites enviados: ".toList ++ itoa n
  | .tryingConnect company name =>
    "Tentando conectar com ".toList ++ company ++ " (".toList ++ name ++ ")".toList
  | .connectError err => "Erro ao tentar conectar: ".toList ++ err.msg

/-- One invocation of a callback of `Callbacks` (`types.go`). -/
inductive Event where
  | Log (line : LogLine)
  | Captured (c : Contact)
  | InviteSent (c : Contact)
  deriving DecidableEq, Repr

/-- The query of an `Abrindo busca` line, the first statement of `processQuery`. -/
def Event.openedQuery : Event → Option Str
  | .Log (.openingSearch q) => some q
  | _ => none

/-- Whether the event is a call of `OnCaptured`. -/
def Event.isCaptured : Event → Bool
  | .Captured _ => true
  | _ => false

/-- Whether the event is a call of `OnInviteSent`. -/
def Event.isInviteSent : Event → Bool
  | .InviteSent _ => true
  | _ => false

/-- The answers of the browser to the four `chromedp.Run` calls of `Engine.login`
(`none` is a `nil` error). -/
structure LoginWorld where
  navigate : Option GoError
  waitReady : Option GoError
  sendKeys : Option GoError
  click : Option GoError

/-- What the script of `Engine.tryConnect` meets: `evalErr` is the error of
`chromedp.Run`; `found` is the script variable `found`, true when a button or
anchor labelled `conectar`/`connect` exists and was clicked; `sendClicked` tells
whether the timer callback, one second later, finds a send label on the first
button or anchor and clicks it. -/
structure ConnectPage where
  evalErr : Option GoError
  found : Bool
  sendClicked : Bool

/-- One element of the array returned by the extraction script of
`Engine.captureAndConnect` (the entry `card` is never read by the Go code). -/
structure Profile where
  name : Str
  title : Str
  company : Str
  location : Str
  linkedin_url : Str

/-- The answers of the browser while `Engine.processQuery` runs: navigation,
`WaitReady("main")`, the count of visible profiles, the result of the extraction
script, and the page met by the connect attempt made for the card of index `i`.
The errors of the two scroll scripts are ignored by the code and left out. -/
structure QueryWorld where
  navigate : Option GoError
  waitReady : Option GoError
  count : Except GoError Int
  capture : Except GoError (List Profile)
  connect : Nat → ConnectPage

/-- The answers of the browser during a whole `Engine.Run`. -/
structure World where
  login : LoginWorld
  minimize : Option GoError
  query : Nat → QueryWorld

/-! ## `engine.go` -/

/-- The method `Engine.login`: the returned error and the callbacks fired. -/
def login (w : LoginWorld) : Option GoError × List Event :=
  let tr := [Event.Log .loggingIn]
  match w.navigate with
  | some err => (some err, tr)
  | none =>
    match w.waitReady with
    | some err => (some err, tr)
    | none =>
      match w.sendKeys with
      | some err => (some err, tr)
      | none =>
        match w.click with
        | some err => (some err, tr)
        | none => (none, tr ++ [Event.Log .loginDone])

/-- The method `Engine.tryConnect`: the returned boolean and the callbacks fired.
The script returns `found`; the click on the send control happens in a timer
callback whose outcome is not part of the result. -/
def tryConnect (pg : ConnectPage) : Bool × List Event :=
  match pg.evalErr with
  | some err => (false, [Event.Log (.connectError err)])
  | none => (pg.found, [])

/-- The variables of the loop of `Engine.captureAndConnect`, with the callbacks
fired so far. -/
structure CaptureState where
  contacts : List Contact
  invitesSent : Int
  trace : List Event

/-- The loop `for i, profile := range result` of `Engine.captureAndConnect`,
from index `i` on. -/
def captureLoop (cfg : RunConfig) (connect : Nat → ConnectPage) :
    List Profile → Nat → CaptureState → CaptureState
  | [], _, st => st
  | profile :: rest, i, st =>
    if (i : Int) ≥ cfg.MaxCardsRead then st
    else
      let contact : Contact :=
        { Name := profile.name, Title := profile.title, Company := profile.company,
          Location := profile.location, LinkedIn := profile.linkedin_url }
      let contacts := st.contacts ++ [contact]
      let tr := st.trace ++ [Event.Captured contact]
      if st.invitesSent < cfg.MaxConnectsPerPage then
        let tr := tr ++ [Event.Log (.tryingConnect contact.Company contact.Name)]
        let r := tryConnect (connect i)
        if r.1 then
          captureLoop cfg connect rest (i + 1)
            ⟨contacts, st.invitesSent + 1, tr ++ r.2 ++ [Event.InviteSent contact]⟩
        else
          captureLoop cfg connect rest (i + 1) ⟨contacts, st.invitesSent, tr ++ r.2⟩
      else
        captureLoop cfg connect rest (i + 1) ⟨contacts, st.invitesSent, tr⟩

/-- The values returned by `Engine.captureAndConnect`, with the callbacks fired. -/
structure CaptureResult where
  contacts : List Contact
  invitesSent : Int
  err : Option GoError
  trace : List Event

/-- The method `Engine.captureAndConnect`. -/
def captureAndConnect (cfg : RunConfig) (w : QueryWorld) : CaptureResult :=
  match w.capture with
  | .error err => ⟨[], 0, some err, []⟩
  | .ok result =>
    let st := captureLoop cfg w.connect result 0 ⟨[], 0, []⟩
    ⟨st.contacts, st.invitesSent, none, st.trace⟩

/-- The method `Engine.processQuery`: the returned error and the callbacks fired. -/
def processQuery (query : Str) (cfg : RunConfig) (w : QueryWorld) :
    Option GoError × List Event :=
  let tr := [Event.Log (.openingSearch query)]
  match w.navigate with
  | some err => (some err, tr)
  | none =>
    match w.waitReady with
    | some err => (some err, tr)
    | none =>
      let tr := tr ++ [Event.Log .searchOpened, Event.Log .startingCapture]
      let tr := tr ++
        [match w.count with
          | .error err => Event.Log (.countError err)
          | .ok count => Event.Log (.foundProfiles count)]
      let r := captureAndConnect cfg w
      match r.err with
      | some err => (some err, tr ++ r.trace)
      | none =>
        (none, tr ++ r.trace ++
          [Event.Log (.capturedCount r.contacts.length query),
            Event.Log (.invitesSent r.invitesSent)])

/-- The loop `for i, query := range cfg.Queries` of `Engine.Run`, from index `i`
on, `tr` being the callbacks fired so far. -/
def runQueries (cfg : RunConfig) (w : Nat → QueryWorld) : List Str → Nat → List Event → List Event
  | [], _, tr => tr
  | query :: rest, i, tr =>
    let tr := tr ++ [Event.Log (.processingQuery (i + 1) cfg.Queries.length query)]
    let r := processQuery query cfg (w i)
    match r.1 with
    | some err => runQueries cfg w rest (i + 1) (tr ++ r.2 ++ [Event.Log (.queryError query err)])
    | none => runQueries cfg w rest (i + 1) (tr ++ r.2)

/-- The method `Engine.Run`: the returned error and the callbacks fired.  The
credentials only flow into the `SendKeys` actions of the login. -/
def Run (cfg : RunConfig) (w : World) : Option GoError × List Event :=
  let l := login w.login
  match l.1 with
  | some err => (some err, l.2)
  | none =>
    let tr := l.2 ++ [Event.Log .waiting2FA]
    let tr :=
      if !cfg.Headless then
        tr ++ [Event.Log .minimizing] ++
          (match w.minimize with
            | some _ => [Event.Log .minimizeFailed]
            | none => [])
      else tr ++ [Event.Log .headlessActive]
    (none, runQueries cfg w.query cfg.Queries 0 tr)

/-! ## `scraper.go` -/

/-- One element of `rawContacts`, the array returned by the extraction script of
`Scraper.CaptureVisibleAndConnect`; `none` is an entry that is absent or not a
string. -/
structure RawContact where
  name : Option Str
  title : Option Str
  company : Option Str
  location : Option Str
  linkedin : Option Str

/-- The function `getString` of `scraper.go`, applied to one entry. -/
def getString (v : Option Str) : Str :=
  match v with
  | some s => s
  | none => []

/-- The answers of the browser to the two scripts of one connect attempt of
`Scraper.CaptureVisibleAndConnect`: `click` is the script that clicks the connect
button of the card, `send` the script that clicks the send button. -/
structure ScraperAttempt where
  click : Except GoError Bool
  send : Except GoError Bool

/-- The answers of the browser while `Scraper.CaptureVisibleAndConnect` runs: the
result of the extraction script and the attempt made for the contact of index `i`. -/
structure ScraperWorld where
  capture : Except GoError (List RawContact)
  attempt : Nat → ScraperAttempt

/-- The loop `for i, contact := range contacts` of
`Scraper.CaptureVisibleAndConnect`, from index `i` on; the state is `connectsSent`. -/
def scraperConnectLoop (maxConnects : Int) (attempt : Nat → ScraperAttempt) :
    List Contact → Nat → Int → Int
  | [], _, connectsSent => connectsSent
  | _ :: rest, i, connectsSent =>
    if connectsSent ≥ maxConnects then connectsSent
    else
      match (attempt i).click with
      | .error _ => scraperConnectLoop maxConnects attempt rest (i + 1) connectsSent
      | .ok clicked =>
        if clicked then
          let sent :=
            match (attempt i).send with
            | .error _ => false
            | .ok b => b
          if sent then scraperConnectLoop maxConnects attempt rest (i + 1) (connectsSent + 1)
          else scraperConnectLoop maxConnects attempt rest (i + 1) connectsSent
        else scraperConnectLoop maxConnects attempt rest (i + 1) connectsSent

/-- The method `Scraper.CaptureVisibleAndConnect`: the contacts and the number of
invites sent.  The polling loop that precedes the capture only logs, scrolls and
sleeps, at most ten times, and leaves both results untouched. -/
def CaptureVisibleAndConnect (maxConnects : Int) (w : ScraperWorld) : List Contact × Int :=
  match w.capture with
  | .error _ => ([], 0)
  | .ok rawContacts =>
    let contacts := rawContacts.map (fun raw =>
      ({ Name := getString raw.name, Title := getString raw.title,
         Company := getString raw.company, Location := getString raw.location,
         LinkedIn := NormalizeProfileURL (getString raw.linkedin) } : Contact))
    (contacts, scraperConnectLoop maxConnects w.attempt contacts 0 0)

/-! ## `internal/http/handlers.go` and `internal/storage`: the web entry point -/

/-- The digits of a decimal numeral, most significant first; `none` when the text
is empty or holds a character that is not a digit. -/
def parseDigits : Str → Option Nat
  | [] => none
  | cs => cs.foldl (fun acc c =>
      match acc with
      | none => none
      | some n => if '0' ≤ c ∧ c ≤ '9' then some (n * 10 + (c.toNat - 48)) else none) (some 0)

/-- Go `strconv.Atoi(s)` on a 64-bit platform: the value and whether an error is
returned.  A syntax error gives `0`; an out-of-range numeral gives the nearest
`int` with a range error. -/
def Atoi (s : Str) : Int × Bool :=
  let neg := s.head? = some '-'
  let body := if s.head? = some '-' ∨ s.head? = some '+' then s.drop 1 else s
  match parseDigits body with
  | none => (0, true)
  | some n =>
    if neg then (if n > 2 ^ 63 then (-(2 ^ 63 : Int), true) else (-(n : Int), false))
    else (if n ≥ 2 ^ 63 then ((2 ^ 63 : Int) - 1, true) else ((n : Int), false))

/-- Go `unicode.IsSpace`. -/
def goIsSpace (c : Char) : Bool :=
  let n := c.toNat
  n = 9 || n = 10 || n = 11 || n = 12 || n = 13 || n = 32 || n = 0x85 || n = 0xA0 ||
    n = 0x1680 || (0x2000 ≤ n && n ≤ 0x200A) || n = 0x2028 || n = 0x2029 || n = 0x202F ||
    n = 0x205F || n = 0x3000

/-- Go `strings.TrimSpace`. -/
def TrimSpace (s : Str) : Str := (s.dropWhile goIsSpace).rdropWhile goIsSpace

/-- The part of `Handlers.RunCrawler` that builds the `RunConfig`: `postForm` is
`c.PostForm` (the empty string for an absent field), `queriesBytes` the content of
the queries file.  `none` is the early return taken when no query is left. -/
def RunCrawlerConfig (postForm : Str → Str) (queriesBytes : Str) : Option RunConfig :=
  let maxCards := (Atoi (postForm "max_cards".toList)).1
  let maxCards := if maxCards = 0 then 60 else maxCards
  let maxConnects := (Atoi (postForm "max_connects".toList)).1
  let maxConnects := if maxConnects = 0 then 3 else maxConnects
  let headlessMode := decide (postForm "headless_mode".toList = "on".toList)
  let queries := Split queriesBytes "\n".toList
  let cleanQueries := queries.foldl (fun acc q =>
    if TrimSpace q ≠ [] then acc ++ [TrimSpace q] else acc) []
  if cleanQueries.length = 0 then none
  else some
    { MaxCardsRead := maxCards, MaxConnectsPerPage := maxConnects, Queries := cleanQueries,
      Headless := headlessMode }

/-- The struct `InviteRecord` of `types.go`; `Timestamp` is the instant, in
nanoseconds since the Unix epoch. -/
structure InviteRecord where
  Timestamp : Int
  UserEmail : Str
  ProfileName : Str
  ProfileTitle : Str
  Company : Str
  Location : Str
  LinkedInURL : Str
  Query : Str
  deriving DecidableEq, Repr

/-- The method `WeeklyCounter.CanSendInvite`, as a function of what its call of
`CountThisWeek` returns: `(canSend, count, err)`. -/
def CanSendInvite (countThisWeek : Except GoError Int) : Bool × Int × Option GoError :=
  match countThisWeek with
  | .error err => (false, 0, some err)
  | .ok count => (decide (count < 200), count, none)

/-- The method `InviteStorage.AppendInvite` on the ledger seen as the sequence of
its records: `ioErr` is the error met when opening or writing the file. -/
def AppendInvite (ioErr : Option GoError) (ledger : List InviteRecord) (record : InviteRecord) :
    Option GoError × List InviteRecord :=
  match ioErr with
  | some err => (some err, ledger)
  | none => (none, ledger ++ [record])

/-- What the environment answers during one call of the `OnInviteSent` closure of
`Handlers.RunCrawler`: the result of `CountThisWeek(session.LinkedInEmail)`, the
clock `time.Now()`, and the file error met by `AppendInvite`. -/
structure InviteEnv where
  countThisWeek : Except GoError Int
  now : Int
  appendErr : Option GoError

/-- The record that the `OnInviteSent` closure of `Handlers.RunCrawler` hands to
`AppendInvite`; `none` when the closure returns before, the quota check having
failed.  `cleanQueries` is not empty when the closure exists. -/
def OnInviteSentRecord (email : Str) (cleanQueries : List Str) (env : InviteEnv)
    (contact : Contact) : Option InviteRecord :=
  let r := CanSendInvite env.countThisWeek
  if r.2.2 ≠ none ∨ r.1 = false then none
  else some
    { Timestamp := env.now, UserEmail := email, ProfileName := contact.Name,
      ProfileTitle := contact.Title, Company := contact.Company, Location := contact.Location,
      LinkedInURL := contact.LinkedIn, Query := cleanQueries.headD [] }

/-- The effect of the `OnInviteSent` closure of `Handlers.RunCrawler` on the ledger. -/
def OnInviteSent (email : Str) (cleanQueries : List Str) (env : InviteEnv)
    (ledger : List InviteRecord) (contact : Contact) : List InviteRecord :=
  match OnInviteSentRecord email cleanQueries env contact with
  | none => ledger
  | some invite => (AppendInvite env.appendErr ledger invite).2

/-- The ledger after the callbacks of a run have been served by the closures of
`Handlers.RunCrawler`: only `OnInviteSent` touches the ledger; its call number
`k` meets the environment `env k`. -/
def serveCallbacks (email : Str) (cleanQueries : List Str) (env : Nat → InviteEnv) :
    List Event → Nat → List InviteRecord → List InviteRecord
  | [], _, ledger => ledger
  | .InviteSent contact :: rest, k, ledger =>
    serveCallbacks email cleanQueries env rest (k + 1)
      (OnInviteSent email cleanQueries (env k) ledger contact)
  | _ :: rest, k, ledger => serveCallbacks email cleanQueries env rest k ledger

/-! ## `encoding/csv` and `SaveCSV` -/

/-- The method `fieldNeedsQuotes` of Go `csv.Writer` for the comma delimiter. -/
def csvFieldNeedsQuotes (field : Str) : Bool :=
  if field = [] then false
  else if field = ['\\', '.'] then true
  else if field.any (fun c => c = '\n' || c = '\r' || c = '"' || c = ',') then true
  else
    match field with
    | c :: _ => goIsSpace c
    | [] => false

/-- The inside of a quoted field as written by Go `csv.Writer` with `UseCRLF`
unset: every quote is doubled, everything else is copied. -/
def csvQuoted : Str → Str
  | [] => []
  | c :: rest => if c = '"' then '"' :: '"' :: csvQuoted rest else c :: csvQuoted rest

/-- One field as written by Go `csv.Writer.Write`. -/
def csvWriteField (field : Str) : Str :=
  if csvFieldNeedsQuotes field then '"' :: (csvQuoted field ++ ['"']) else field

/-- The fields of a record from index `n` on, as written by the loop of Go
`csv.Writer.Write`: a comma precedes every field but the first. -/
def csvWriteFields : List Str → Nat → Str
  | [], _ => []
  | field :: rest, n =>
    (if n > 0 then [','] else []) ++ csvWriteField field ++ csvWriteFields rest (n + 1)

/-- Go `csv.Writer.Write(record)` with the default settings: the text appended to
the output. -/
def csvWriteRecord (record : List Str) : Str := csvWriteFields record 0 ++ ['\n']

/-- The header written by `SaveCSV`. -/
def csvHeader : List Str :=
  ["Nome".toList, "Cargo".toList, "Empresa".toList, "Localização".toList, "LinkedIn".toList]

/-- The row written by `SaveCSV` for one contact. -/
def contactRow (c : Contact) : List Str := [c.Name, c.Title, c.Company, c.Location, c.LinkedIn]

/-- The function `SaveCSV` of `export.go`: the returned error and the content of
the file when `os.Create` succeeds (`createErr` is its error).  The errors of the
writes are ignored by the code. -/
def SaveCSV (createErr : Option GoError) (cs : List Contact) : Option GoError × Option Str :=
  match createErr with
  | some err => (some err, none)
  | none =>
    let out := csvWriteRecord csvHeader
    let out := cs.foldl (fun out c => out ++ csvWriteRecord (contactRow c)) out
    (none, some out)

/-- The errors of Go `csv.Reader`: `ErrBareQuote`, `ErrQuote`, `ErrFieldCount`. -/
inductive CsvError where
  | bareQuote
  | quote
  | fieldCount
  deriving DecidableEq, Repr

/-- Where Go `csv.Reader` stands in its input: before a record, before a field,
inside an unquoted field, inside a quoted field, or just after a quote met inside
a quoted field. -/
inductive CsvMode where
  | recordStart
  | fieldStart
  | unquoted
  | quoted
  | quoteSeen
  deriving DecidableEq, Repr

/-- What Go `csv.Reader.ReadAll` has read: the records returned so far, the fields
of the current record, and the text of the current field. -/
structure CsvAcc where
  records : List (List Str)
  fields : List Str
  buf : Str

/-- The current field ends at a comma. -/
def CsvAcc.endField (acc : CsvAcc) : CsvAcc :=
  { acc with fields := acc.fields ++ [acc.buf], buf := [] }

/-- The current record ends; with `FieldsPerRecord = 0` every record must have as
many fields as the first one. -/
def CsvAcc.endRecord (acc : CsvAcc) : Except CsvError CsvAcc :=
  let record := acc.fields ++ [acc.buf]
  match acc.records with
  | [] => .ok { records := [record], fields := [], buf := [] }
  | first :: _ =>
    if record.length = first.length then
      .ok { records := acc.records ++ [record], fields := [], buf := [] }
    else .error .fieldCount

/-- One character read by Go `csv.Reader` with the default settings (comma
delimiter, no comment character, `LazyQuotes` and `TrimLeadingSpace` unset). -/
def csvStep (mode : CsvMode) (acc : CsvAcc) (c : Char) : Except CsvError (CsvMode × CsvAcc) :=
  match mode with
  | .recordStart =>
    if c = '\n' then .ok (.recordStart, acc)
    else if c = '"' then .ok (.quoted, acc)
    else if c = ',' then .ok (.fieldStart, acc.endField)
    else .ok (.unquoted, { acc with buf := acc.buf ++ [c] })
  | .fieldStart =>
    if c = '\n' then acc.endRecord.map (fun a => (.recordStart, a))
    else if c = '"' then .ok (.quoted, acc)
    else if c = ',' then .ok (.fieldStart, acc.endField)
    else .ok (.unquoted, { acc with buf := acc.buf ++ [c] })
  | .unquoted =>
    if c = '\n' then acc.endRecord.map (fun a => (.recordStart, a))
    else if c = '"' then .error .bareQuote
    else if c = ',' then .ok (.fieldStart, acc.endField)
    else .ok (.unquoted, { acc with buf := acc.buf ++ [c] })
  | .quoted =>
    if c = '"' then .ok (.quoteSeen, acc)
    else .ok (.quoted, { acc with buf := acc.buf ++ [c] })
  | .quoteSeen =>
    if c = '"' then .ok (.quoted, { acc with buf := acc.buf ++ [c] })
    else if c = ',' then .ok (.fieldStart, acc.endField)
    else if c = '\n' then acc.endRecord.map (fun a => (.recordStart, a))
    else .error .quote

/-- The end of the input met by Go `csv.Reader`. -/
def csvEOF (mode : CsvMode) (acc : CsvAcc) : Except CsvError (List (List Str)) :=
  match mode with
  | .recordStart => .ok acc.records
  | .quoted => .error .quote
  | _ => acc.endRecord.map (fun a => a.records)

/-- Go `csv.Reader.ReadAll` from a given mode.  The method `readLine` removes a
carriage return that stands before a line feed, and one that ends the input. -/
def csvRun : CsvMode → CsvAcc → Str → Except CsvError (List (List Str))
  | mode, acc, [] => csvEOF mode acc
  | mode, acc, c :: rest =>
    if c = '\r' ∧ rest = [] then csvEOF mode acc
    else if c = '\r' ∧ rest.head? = some '\n' then csvRun mode acc rest
    else
      match csvStep mode acc c with
      | .error e => .error e
      | .ok (mode', acc') => csvRun mode' acc' rest

/-- Go `csv.NewReader(file).ReadAll()` with the default settings. -/
def csvReadAll (input : Str) : Except CsvError (List (List Str)) :=
  csvRun .recordStart ⟨[], [], []⟩ input

/-- The text of a field after `readLine`: a carriage return standing before a
line feed is dropped. -/
def crlfNorm : Str → Str
  | [] => []
  | c :: rest => if c = '\r' ∧ rest.head? = some '\n' then crlfNorm rest else c :: crlfNorm rest

/-! ## JavaScript strings and regular expressions

The extraction scripts of `engine.go` and `scraper.go` are JavaScript texts held
in Go raw string literals.  A raw string keeps every backslash, so the script
text `\\s` is the regular expression "a backslash, then `s`", and the script
text `'\\n'` is the two-character string backslash, `n`.  The expressions below
are the ones that reach the browser. -/

/-- JavaScript white space and line terminators: the class `\s`, and what
`trim()` removes. -/
def jsIsSpace (c : Char) : Bool :=
  let n := c.toNat
  n = 9 || n = 10 || n = 11 || n = 12 || n = 13 || n = 32 || n = 0xA0 || n = 0x1680 ||
    (0x2000 ≤ n && n ≤ 0x200A) || n = 0x2028 || n = 0x2029 || n = 0x202F || n = 0x205F ||
    n = 0x3000 || n = 0xFEFF

/-- JavaScript `s.trim()`. -/
def jsTrim (s : Str) : Str := (s.dropWhile jsIsSpace).rdropWhile jsIsSpace

/-- JavaScript `s.length`: the number of UTF-16 code units. -/
def jsLength (s : Str) : Nat := (s.map (fun c => if c.toNat ≥ 0x10000 then 2 else 1)).sum

/-- JavaScript `s.includes(sub)`. -/
def jsIncludes (s sub : Str) : Bool := decide (Index s sub ≠ -1)

/-- Whether `s` includes none of the words. -/
def jsIncludesNone (s : Str) (words : List String) : Bool :=
  words.all (fun w => !jsIncludes s w.toList)

/-- Whether `s` includes one of the words. -/
def jsIncludesAny (s : Str) (words : List String) : Bool :=
  words.any (fun w => jsIncludes s w.toList)

/-- A regular expression of the scripts: a character test, sequence, alternative,
greedy and lazy repetition, and the assertions `^`, `$` (without the flag `m`)
and `\b`. -/
inductive Rx where
  | eps
  | chr (p : Char → Bool)
  | seq (a b : Rx)
  | alt (a b : Rx)
  | star (a : Rx)
  | lazyStar (a : Rx)
  | bol
  | eol
  | wordB

/-- The continuation of a match: the character before the position, and the rest
of the input. -/
abbrev RxCont := Option Char → Str → Option Str

/-- Greedy repetition of the matcher `ma`: one more round that consumes input is
tried before the continuation; `n` bounds the rounds by the length of the input. -/
def Rx.starLoop (ma : Option Char → Str → RxCont → Option Str) :
    Nat → Option Char → Str → RxCont → Option Str
  | 0, prev, s, k => k prev s
  | n + 1, prev, s, k =>
    match ma prev s (fun prev' s' =>
        if s'.length < s.length then Rx.starLoop ma n prev' s' k else none) with
    | some r => some r
    | none => k prev s

/-- Lazy repetition of the matcher `ma`: the continuation is tried before one
more round. -/
def Rx.lazyLoop (ma : Option Char → Str → RxCont → Option Str) :
    Nat → Option Char → Str → RxCont → Option Str
  | 0, prev, s, k => k prev s
  | n + 1, prev, s, k =>
    match k prev s with
    | some r => some r
    | none =>
      ma prev s (fun prev' s' =>
        if s'.length < s.length then Rx.lazyLoop ma n prev' s' k else none)

/-- The class `\w`. -/
def jsIsWord (c : Option Char) : Bool :=
  match c with
  | none => false
  | some c => c.isAlphanum || c = '_'

/-- The backtracking matcher of a regular expression at one position: `prev` is
the character before the position (`none` at the start of the input), `s` the
input from the position on; the result is the input left after the first match
found, in the order of priority of JavaScript. -/
def Rx.run : Rx → Option Char → Str → RxCont → Option Str
  | .eps, prev, s, k => k prev s
  | .chr p, _, s, k =>
    match s with
    | c :: rest => if p c then k (some c) rest else none
    | [] => none
  | .seq a b, prev, s, k => Rx.run a prev s (fun prev' s' => Rx.run b prev' s' k)
  | .alt a b, prev, s, k =>
    match Rx.run a prev s k with
    | some r => some r
    | none => Rx.run b prev s k
  | .star a, prev, s, k => Rx.starLoop (Rx.run a) s.length prev s k
  | .lazyStar a, prev, s, k => Rx.lazyLoop (Rx.run a) s.length prev s k
  | .bol, prev, s, k => if prev = none then k prev s else none
  | .eol, prev, s, k => if s = [] then k prev s else none
  | .wordB, prev, s, k => if jsIsWord prev ≠ jsIsWord s.head? then k prev s else none

/-- The first match of `r` in the input, searched from left to right: the text
before the match and the text after it.  `pre` is the text already passed. -/
def Rx.search (r : Rx) : Option Char → Str → Str → Option (Str × Str)
  | prev, pre, [] => (r.run prev [] (fun _ rest => some rest)).map (fun rest => (pre, rest))
  | prev, pre, c :: cs =>
    match r.run prev (c :: cs) (fun _ rest => some rest) with
    | some rest => some (pre, rest)
    | none => Rx.search r (some c) (pre ++ [c]) cs

/-- JavaScript `r.test(s)`, and the truth value of `s.match(r)`. -/
def jsTest (r : Rx) (s : Str) : Bool := (r.search none [] s).isSome

/-- JavaScript `s.replace(r, '')` for an expression without the flag `g`. -/
def jsReplace (r : Rx) (s : Str) : Str :=
  match r.search none [] s with
  | some (pre, rest) => pre ++ rest
  | none => s

/-- The other case of an ASCII letter. -/
def asciiSwapCase (c : Char) : Char :=
  if 'a' ≤ c ∧ c ≤ 'z' then Char.ofNat (c.toNat - 32)
  else if 'A' ≤ c ∧ c ≤ 'Z' then Char.ofNat (c.toNat + 32)
  else c

/-- A pattern character under the flag `i`: the character itself, the other case
of an ASCII letter, and the other case of `õ`, the only letter outside ASCII in
the expressions that carry the flag. -/
def ciChar (p : Char) (x : Char) : Bool :=
  x = p || x = asciiSwapCase p || (p = 'õ' && x = 'Õ') || (p = 'Õ' && x = 'õ')

/-- A literal text. -/
def Rx.lit (s : String) : Rx := s.toList.foldr (fun c r => .seq (.chr (fun x => x = c)) r) .eps

/-- A literal text under the flag `i`. -/
def Rx.litCI (s : String) : Rx := s.toList.foldr (fun c r => .seq (.chr (ciChar c)) r) .eps

/-- The sequence of the expressions of a list. -/
def Rx.seqs (rs : List Rx) : Rx := rs.foldr .seq .eps

/-- The alternative of the expressions of a list (none matches the empty list). -/
def Rx.alts : List Rx → Rx
  | [] => .chr (fun _ => false)
  | [r] => r
  | r :: rs => .alt r (Rx.alts rs)

/-- One backslash. -/
def Rx.backslash : Rx := .chr (fun x => x = '\\')

/-- The class `\d`. -/
def Rx.digit : Rx := .chr (fun x => '0' ≤ x ∧ x ≤ '9')

/-- The class `\s`. -/
def Rx.space : Rx := .chr jsIsSpace

/-- The class `[A-Z]` under the flag `i`. -/
def Rx.letterCI : Rx := .chr (fun x => ('A' ≤ x ∧ x ≤ 'Z') ∨ ('a' ≤ x ∧ x ≤ 'z'))

/-- The character `.`: anything but a line terminator. -/
def Rx.dot : Rx :=
  .chr (fun x => !(x = '\n' || x = '\r' || x.toNat = 0x2028 || x.toNat = 0x2029))

/-- Script text `/Ver perfil de\\s*/i`. -/
def rxVerPerfilDe : Rx :=
  .seqs [.litCI "Ver perfil de", .backslash, .star (.chr (ciChar 's'))]

/-- Script text `/\\s*Ver perfil.*$/i`. -/
def rxVerPerfilTail : Rx :=
  .seqs [.backslash, .star (.chr (ciChar 's')), .litCI "Ver perfil", .star .dot, .eol]

/-- Script text `/\\d+\\s*conexão/` of `engine.go`. -/
def rxConexaoEngine : Rx :=
  .seqs [.backslash, .lit "d", .star (.lit "d"), .backslash, .star (.lit "s"), .lit "conexão"]

/-- The alternatives `Brasil|Brazil|SP|...|PA` of the location expression, under
the flag `i`. -/
def rxLocationWords : List Rx :=
  ["Brasil", "Brazil", "SP", "RJ", "CE", "PE", "PR", "SC", "RS", "MG", "BA", "DF", "GO", "ES",
    "AM", "PA"].map Rx.litCI

/-- Script text `/,\\s*[A-Z]{2}\\b|Brasil|...|PA/i` of `engine.go`. -/
def rxLocationEngine : Rx :=
  .alts (.seqs [.lit ",", .backslash, .star (.chr (ciChar 's')), .letterCI, .letterCI,
      .backslash, .chr (ciChar 'b')] :: rxLocationWords)

/-- The value of `RxLocation` (`selectors.go`) under the flag `i`:
`,\s*[A-Z]{2}\b|Brasil|...|PA`. -/
def rxLocationScraper : Rx :=
  .alts (.seqs [.lit ",", .star .space, .letterCI, .letterCI, .wordB] :: rxLocationWords)

/-- Script text `/%s/i` of the last location filter of `scraper.go`: the format
has four verbs and `fmt.Sprintf` gets three operands, so the expression is
`/%!s(MISSING)/i`. -/
def rxMissing : Rx := .seqs [.litCI "%!s", .litCI "MISSING"]

/-- Script text `/^\\d+\\s*\\+?\\s*WORDs?$/i` of `scraper.go`, `word` being
`conexõe` or `connection`: the quantifier `+?` applies to the third backslash. -/
def rxCountEsc (word : String) : Rx :=
  .seqs [.bol, .backslash, .chr (ciChar 'd'), .star (.chr (ciChar 'd')), .backslash,
    .star (.chr (ciChar 's')), .backslash, .lazyStar .backslash, .backslash,
    .star (.chr (ciChar 's')), .litCI word, .alt (.chr (ciChar 's')) .eps, .eol]

/-- Script text `/^\d+\s*\+?\s*WORDs?$/i` of `scraper.go`, `word` being `conexõe`
or `seguidore`. -/
def rxCount (word : String) : Rx :=
  .seqs [.bol, .digit, .star .digit, .star .space, .alt (.lit "+") .eps, .star .space,
    .litCI word, .alt (.chr (ciChar 's')) .eps, .eol]

/-! ## The page seen by the extraction scripts -/

/-- The tag of a descendant selected by `'span, div, p'`. -/
inductive Tag where
  | span
  | div
  | p
  deriving DecidableEq, Repr

/-- A descendant of a card selected by `'span, div, p'`: its tag, its `class`
attribute, its `innerText` and its `textContent`. -/
structure Elem where
  tag : Tag
  classAttr : Str
  innerText : Str
  textContent : Str

/-- The profile link of a card, `card.querySelector('a[href*="/in/"]')`. -/
structure Link where
  innerText : Str
  href : Str

/-- A card, an element selected by `SelCardNew`: its profile link if it has one,
its descendants selected by `'span, div, p'` in document order, its own
`innerText` and `textContent`, and its attribute `data-sel`. -/
structure Card where
  link : Option Link
  elems : List Elem
  innerText : Str
  textContent : Str
  dataSel : Option Str

/-- The two-character separator of the script text `split('\\n')`: a backslash
and the letter `n`. -/
def backslashN : Str := ['\\', 'n']

/-! ## The extraction script of `Engine.captureAndConnect` -/

/-- The constant `name` of the script. -/
def engineName (link : Link) : Str :=
  jsTrim (jsReplace rxVerPerfilTail (jsReplace rxVerPerfilDe link.innerText))

/-- The array `relevantTexts` of the script. -/
def engineRelevantTexts (name : Str) (elems : List Elem) : List Str :=
  (elems.map (fun span => jsTrim span.innerText)).filter (fun text =>
    decide (text ≠ []) && decide (text ≠ name) &&
      jsIncludesNone text ["status", "off-line", "online", "Ver perfil", "Conectar", "Connect",
        "Mensagem", "Message", "Seguir", "Follow"] &&
      !jsTest rxConexaoEngine text)

/-- The variables `title` and `company` of the script, as functions of
`relevantTexts`; `lowerJS` is `String.prototype.toLowerCase` of the browser. -/
def engineTitleCompany (lowerJS : Str → Str) (relevantTexts : List Str) : Str × Str :=
  let title := relevantTexts.headD []
  let company := (relevantTexts.drop 1).headD []
  if jsIncludes title "|".toList ∨ jsIncludes title "-".toList then
    let parts := title.splitOnP (fun c => c = '|' || c = '-')
    (jsTrim (parts.headD []), jsTrim (" ".toList.intercalate (parts.drop 1)))
  else if jsIncludesAny (lowerJS title) ["grupo", "boticário", "company", "corp", "ltda", "s.a."]
  then
    if (title.splitOn ' ').length ≥ 3 then
      let words := title.splitOn ' '
      (" ".toList.intercalate (words.take 2), " ".toList.intercalate (words.drop 2))
    else (title, company)
  else (title, company)

/-- The variable `location` of the script. -/
def engineLocation (relevantTexts : List Str) (cardInnerText : Str) : Str :=
  match relevantTexts.find? (fun text =>
      jsTest rxLocationEngine text &&
        jsIncludesNone text ["status", "off-line", "online", "O status está", "Ver perfil",
          "Conectar", "Connect"]) with
  | some text => text
  | none =>
    match (Split cardInnerText backslashN).find? (fun line =>
        jsTest rxLocationEngine line &&
          jsIncludesNone line ["status", "off-line", "online", "Ver perfil", "Conectar",
            "Connect"]) with
    | some line => jsTrim line
    | none => []

/-- The body of the loop `for (const card of cards)` of the script: the object
pushed to `results`, or `none` for a card without profile link. -/
def engineExtractCard (lowerJS : Str → Str) (card : Card) : Option Profile :=
  match card.link with
  | none => none
  | some link =>
    let name := engineName link
    let relevantTexts := engineRelevantTexts name card.elems
    let tc := engineTitleCompany lowerJS relevantTexts
    some
      { name := name, title := tc.1, company := tc.2,
        location := engineLocation relevantTexts card.innerText, linkedin_url := link.href }

/-- The loop `for (const card of cards)` of the script, with its variables
`count` and `results`. -/
def engineScriptLoop (lowerJS : Str → Str) (maxCardsRead : Int) :
    List Card → Int → List Profile → List Profile
  | [], _, results => results
  | card :: rest, count, results =>
    if count ≥ maxCardsRead then results
    else
      match engineExtractCard lowerJS card with
      | none => engineScriptLoop lowerJS maxCardsRead rest count results
      | some profile =>
        engineScriptLoop lowerJS maxCardsRead rest (count + 1) (results ++ [profile])

/-- The extraction script of `Engine.captureAndConnect` on the cards of the page. -/
def engineScript (lowerJS : Str → Str) (maxCardsRead : Int) (page : List Card) : List Profile :=
  engineScriptLoop lowerJS maxCardsRead page 0 []

/-! ## The extraction script of `Scraper.CaptureVisibleAndConnect` -/

/-- The variable `name` of the script. -/
def scraperName (link : Link) : Str :=
  let name := jsTrim ((Split link.innerText backslashN).headD [])
  jsTrim (jsReplace rxVerPerfilTail (jsReplace rxVerPerfilDe name))

/-- The array `relevantTexts` of the script. -/
def scraperRelevantTexts (name : Str) (elems : List Elem) : List Str :=
  (elems.map (fun elem => jsTrim elem.textContent)).filter (fun text =>
    decide (text ≠ []) && decide (text ≠ name) && decide (jsLength text > 5) &&
      decide (jsLength text < 100) &&
      jsIncludesNone text ["•", "status", "off-line", "online", "Conectar", "Connect",
        "Mensagem", "Message", "Seguir", "Follow", "Ver perfil", "Conexão de", "Connection"] &&
      !jsTest (rxCountEsc "conexõe") text && !jsTest (rxCountEsc "connection") text)

/-- The block `if (title.includes('|') || title.includes('-'))` of the script,
on the variables `title` and `company`. -/
def scraperSplitSep (title company : Str) : Str × Str :=
  if jsIncludes title "|".toList ∨ jsIncludes title "-".toList then
    let parts := ((title.splitOnP (fun c => c = '|' || c = '-')).map jsTrim).filter
      (fun p => decide (jsLength p > 0))
    if parts.length ≥ 2 then (parts.headD [], " - ".toList.intercalate (parts.drop 1))
    else (title, company)
  else (title, company)

/-- Whether an element is selected by
`span[class*="entity-result__primary-subtitle"], span[class*="search-result__info"],
div[class*="search-result__info"]`. -/
def isCompanyElement (e : Elem) : Bool :=
  (decide (e.tag = .span) &&
      (jsIncludes e.classAttr "entity-result__primary-subtitle".toList ||
        jsIncludes e.classAttr "search-result__info".toList)) ||
    (decide (e.tag = .div) && jsIncludes e.classAttr "search-result__info".toList)

/-- The loop over `companyElements` of the script: the text assigned to
`company`, or the empty string. -/
def scraperCompanyScan (name title : Str) (elems : List Elem) : Str :=
  match ((elems.filter isCompanyElement).map (fun elem => jsTrim elem.textContent)).find?
    (fun text =>
      decide (text ≠ []) && decide (text ≠ name) && decide (text ≠ title) &&
        decide (jsLength text > 3) && decide (jsLength text < 100) &&
        jsIncludesNone text ["•", "status", "off-line", "online", "Conectar", "Connect",
          "Ver perfil", "Mensagem", "Message", "Seguir", "Follow"] &&
        !jsTest (rxCount "conexõe") text && !jsTest (rxCount "seguidore") text) with
  | some text => text
  | none => []

/-- The block `if (!company && title)` that follows the first scan: a split at
the separators, or an even split of the words of a title that holds `Grupo`,
`Boticário`, `Company` or `Corp`. -/
def scraperSplitWords (title company : Str) : Str × Str :=
  if company = [] ∧ title ≠ [] then
    if jsIncludes title "|".toList ∨ jsIncludes title "-".toList then
      scraperSplitSep title company
    else if jsIncludesAny title ["Grupo", "Boticário", "Company", "Corp"] then
      let words := title.splitOn ' '
      if words.length ≥ 3 then
        (" ".toList.intercalate (words.take (words.length / 2)),
          " ".toList.intercalate (words.drop (words.length / 2)))
      else (title, company)
    else (title, company)
  else (title, company)

/-- The block `if (relevantTexts.length > 0)` of the script: the variables
`title` and `company` after it. -/
def scraperTitleCompany (lowerJS : Str → Str) (name : Str) (elems : List Elem)
    (relevantTexts : List Str) : Str × Str :=
  if relevantTexts.length > 0 then
    let title := relevantTexts.headD []
    let company : Str := []
    let tc := scraperSplitSep title company
    let company := if tc.2 = [] then scraperCompanyScan name tc.1 elems else tc.2
    let tc := scraperSplitWords tc.1 company
    let company := if tc.2 = [] then scraperCompanyScan name tc.1 elems else tc.2
    let tc : Str × Str :=
      if company = [] ∧ tc.1 ≠ [] ∧
          jsIncludesAny (lowerJS tc.1) ["grupo", "boticário", "company", "corp", "ltda", "s.a."]
      then (([] : Str), tc.1)
      else (tc.1, company)
    let company :=
      if tc.2 = [] ∧ relevantTexts.length > 1 ∧ (relevantTexts.drop 1).headD [] ≠ tc.1 then
        (relevantTexts.drop 1).headD []
      else tc.2
    (tc.1, company)
  else ([], [])

/-- The loop over `locationElements` of the script: the text assigned to
`location`, or the empty string. -/
def scraperLocation (elems : List Elem) : Str :=
  match ((elems.filter (fun e => decide (e.tag = .span) || decide (e.tag = .div))).map
      (fun elem => jsTrim elem.textContent)).find? (fun text =>
        decide (text ≠ []) && jsTest rxLocationScraper text && decide (jsLength text < 50) &&
          jsIncludesNone text ["status", "off-line", "online", "O status está", "Ver perfil",
            "Conectar", "Connect"]) with
  | some text => text
  | none => []

/-- The lines of `card.textContent` kept by the three fallback filters of the
script: `maxLen` is the bound on the length, `excluded` the texts the line must
differ from, `words` the texts it must not include. -/
def scraperLines (cardTextContent : Str) (excluded : List Str) (maxLen : Nat)
    (words : List String) : List Str :=
  ((Split cardTextContent backslashN).map jsTrim).filter (fun t =>
    decide (t ≠ []) && excluded.all (fun x => decide (t ≠ x)) && decide (jsLength t > 3) &&
      decide (jsLength t < maxLen) && jsIncludesNone t words)

/-- The body of the loop over the cards of the script: the object pushed to
`contacts`, or `none` for a card without profile link. -/
def scraperExtractCard (lowerJS : Str → Str) (card : Card) : Option RawContact :=
  match card.link with
  | none => none
  | some profileLink =>
    let name := scraperName profileLink
    let relevantTexts := scraperRelevantTexts name card.elems
    let tc := scraperTitleCompany lowerJS name card.elems relevantTexts
    let location := scraperLocation card.elems
    let fallbackWords := ["•", "status", "off-line", "online", "Conectar", "Connect",
      "Ver perfil", "Mensagem", "Message", "Conexão de", "Connection"]
    let title :=
      if tc.1 = [] then (scraperLines card.textContent [name] 80 fallbackWords).headD []
      else tc.1
    let company :=
      if tc.2 = [] ∧ title ≠ [] then
        (scraperLines card.textContent [name, title] 80 fallbackWords).headD []
      else tc.2
    let location :=
      if location = ([] : Str) then
        ((scraperLines card.textContent [name, title, company] 50
            ["status", "off-line", "online", "O status está", "Ver perfil", "Conectar",
              "Connect"]).filter (fun t => jsTest rxMissing t)).headD []
      else location
    some
      { name := some name, title := some title, company := some company,
        location := some location, linkedin := some profileLink.href }

/-- The statement `card.setAttribute('data-sel', 'card-' + i)` of the script. -/
def scraperMark (i : Nat) (card : Card) : Card :=
  { card with dataSel := some ("card-".toList ++ itoa i) }

/-- The loop `for (let i = 0; i < Math.min(cards.length, maxCards); i++)` of the
script, `maxCards` being 60: the array `contacts` and the cards as the script
leaves them. -/
def scraperScriptLoop (lowerJS : Str → Str) :
    List Card → Nat → List RawContact × List Card → List RawContact × List Card
  | [], _, st => st
  | card :: rest, i, st =>
    if i ≥ 60 then (st.1, st.2 ++ card :: rest)
    else
      let contacts :=
        match scraperExtractCard lowerJS card with
        | none => st.1
        | some contact => st.1 ++ [contact]
      scraperScriptLoop lowerJS rest (i + 1) (contacts, st.2 ++ [scraperMark i card])

/-- The extraction script of `Scraper.CaptureVisibleAndConnect` on the cards of
the page: the array it returns and the page it leaves. -/
def scraperScript (lowerJS : Str → Str) (page : List Card) : List RawContact × List Card :=
  scraperScriptLoop lowerJS page 0 ([], [])

/-- The end of a record whose fields are `record`, as in `CsvAcc.endRecord` (proof
device). -/
def csvFinish (records : List (List Str)) (record : List Str) : Except CsvError CsvAcc :=
  match records with
  | [] => .ok { records := [record], fields := [], buf := [] }
  | first :: _ =>
    if record.length = first.length then
      .ok { records := records ++ [record], fields := [], buf := [] }
    else .error .fieldCount

/-- What follows the end of a record (proof device). -/
def csvAfterRecord (r : Except CsvError CsvAcc) (rest : Str) : Except CsvError (List (List Str)) :=
  match r with
  | .error e => .error e
  | .ok a => csvRun .recordStart a rest

/-! ## `internal/storage`: the ledger and the weekly counter -/

/-- What a Go call ends with: a result, a returned error, or a run-time panic. -/
inductive GoResult (α : Type) where
  | ok (a : α)
  | err (e : GoError)
  | panic
  deriving DecidableEq, Repr

/-- The value of a Go `int` (64 bits, two's complement) for the mathematical
result `x` of an arithmetic operation. -/
def wrapInt64 (x : Int) : Int := (x + 2 ^ 63) % 2 ^ 64 - 2 ^ 63

/-- A record as `ListInvites` reads it back: `AppendInvite` writes the timestamp
with `Format(time.RFC3339)`, which keeps whole seconds only. -/
def storedRecord (r : InviteRecord) : InviteRecord :=
  { r with Timestamp := r.Timestamp - r.Timestamp % 1000000000 }

/-- The method `InviteStorage.ListInvites`: `ioErr` is the error met when opening
or reading the file, `ledger` the records appended so far, all of them with eight
fields and a valid timestamp; the empty ledger is the missing file, for which the
method returns at once.  The result is `(invites[start:end], total)`; slicing
panics unless `0 <= start <= end`. -/
def ListInvites (ioErr : Option GoError) (ledger : List InviteRecord) (page size : Int) :
    GoResult (List InviteRecord × Int) :=
  match ioErr with
  | some err => .err err
  | none =>
    match ledger with
    | [] => .ok ([], 0)
    | first :: others =>
      let invites := (first :: others).map storedRecord
      let total : Int := invites.length
      let start := wrapInt64 (page * size)
      let end_ := wrapInt64 (start + size)
      if start ≥ total then .ok ([], total)
      else
        let end_ := if end_ > total then total else end_
        if 0 ≤ start ∧ start ≤ end_ then
          .ok ((invites.drop start.toNat).take (end_ - start).toNat, total)
        else .panic

/-- The number of nanoseconds of a day. -/
def nsPerDay : Int := 86400 * 1000000000

/-- A Go `time.Time` in a location whose offset from UTC is fixed: the instant,
in nanoseconds since the Unix epoch, and the offset of the location, in
nanoseconds east of UTC. -/
structure GoTime where
  unixNano : Int
  offset : Int
  deriving DecidableEq, Repr

/-- The calendar day of `t` in its location, counted from 1970-01-01. -/
def GoTime.localDay (t : GoTime) : Int := (t.unixNano + t.offset) / nsPerDay

/-- Go `t.Weekday()`, Sunday being 0: 1970-01-01 was a Thursday. -/
def GoTime.Weekday (t : GoTime) : Int := (t.localDay + 4) % 7

/-- The variable `daysToMonday` of `getWeekStart`, as a function of
`int(t.Weekday())`. -/
def daysToMonday (weekday : Int) : Int :=
  let weekday := if weekday = 0 then 7 else weekday
  weekday - 1

/-- The function `getWeekStart` of `weekly_counter.go`:
`time.Date(t.Year(), t.Month(), t.Day()-daysToMonday, 0, 0, 0, 0, t.Location())`,
the midnight that opens the calendar day `daysToMonday` days before the day of
`t`. -/
def getWeekStart (t : GoTime) : GoTime :=
  { unixNano := (t.localDay - daysToMonday t.Weekday) * nsPerDay - t.offset, offset := t.offset }

/-- Go `t.AddDate(0, 0, days)` in a location of fixed offset. -/
def GoTime.AddDays (t : GoTime) (days : Int) : GoTime :=
  { t with unixNano := t.unixNano + days * nsPerDay }

/-- The test of the loop of `CountThisWeek`: same user, timestamp after
`weekStart` and before `weekEnd`. -/
def inWeekOf (userEmail : Str) (weekStart weekEnd : GoTime) (invite : InviteRecord) : Bool :=
  decide (invite.UserEmail = userEmail) && decide (invite.Timestamp > weekStart.unixNano) &&
    decide (invite.Timestamp < weekEnd.unixNano)

/-- The method `WeeklyCounter.CountThisWeek`: `now` is `time.Now()`. -/
def CountThisWeek (now : GoTime) (ioErr : Option GoError) (ledger : List InviteRecord)
    (userEmail : Str) : GoResult Int :=
  let weekStart := getWeekStart now
  let weekEnd := weekStart.AddDays 7
  match ListInvites ioErr ledger 0 10000 with
  | .err err => .err ⟨"erro ao listar convites: ".toList ++ err.msg⟩
  | .panic => .panic
  | .ok (invites, _) =>
    .ok (invites.foldl (fun count invite =>
      if inWeekOf userEmail weekStart weekEnd invite then count + 1 else count) 0)

/-- The argument of `time.Sleep` between two connect attempts of
`Scraper.CaptureVisibleAndConnect`, in nanoseconds:
`time.Duration(500+time.Now().UnixNano()%1000) * time.Millisecond`, the operator
`%` of Go truncating towards zero. -/
def jitterDelay (unixNano : Int) : Int :=
  wrapInt64 (wrapInt64 (500 + Int.tmod unixNano 1000) * 1000000)

/-! ## Facts about the `strings` functions -/

theorem IndexFrom_range (sub : Str) (s : Str) (n : Nat) :
    IndexFrom sub s n = -1 ∨ ((n : Int) ≤ IndexFrom sub s n ∧ IndexFrom sub s n ≤ n + s.length) := by
  induction s generalizing n with
  | nil =>
    unfold IndexFrom
    split <;> simp
  | cons c cs ih =>
    unfold IndexFrom
    split
    · right; simp; omega
    · rcases ih (n + 1) with h | ⟨h1, h2⟩
      · left; exact h
      · right
        simp only [List.length_cons]
        push_cast at h1 h2 ⊢
        omega

theorem IndexFrom_singleton_not_mem (x : Char) (s : Str) (n : Nat) :
    (IndexFrom [x] s n < 0 → x ∉ s) ∧
      (0 ≤ IndexFrom [x] s n → x ∉ s.take (IndexFrom [x] s n - n).toNat) := by
  induction s generalizing n with
  | nil => simp
  | cons c cs ih =>
    unfold IndexFrom
    by_cases hc : ([x] : Str).isPrefixOf (c :: cs) = true
    · simp only [hc, if_true]
      constructor
      · intro h; omega
      · intro _; simp
    · simp only [hc]
      have hxc : x ≠ c := by
        intro h
        apply hc
        simp [List.isPrefixOf, h]
      obtain ⟨ih1, ih2⟩ := ih (n + 1)
      constructor
      · intro h
        simp only [List.mem_cons, not_or]
        exact ⟨hxc, ih1 (by simpa using h)⟩
      · intro h
        have h0 : 0 ≤ IndexFrom [x] cs (n + 1) := by simpa using h
        have hr := IndexFrom_range [x] cs (n + 1)
        have hge : ((n : Int) + 1) ≤ IndexFrom [x] cs (n + 1) := by
          rcases hr with h | ⟨h1, _⟩
          · omega
          · exact_mod_cast h1
        have e : (IndexFrom [x] cs (n + 1) - (n : Int)).toNat
            = (IndexFrom [x] cs (n + 1) - ((n + 1 : Nat) : Int)).toNat + 1 := by
          push_cast; omega
        simp only [Bool.false_eq_true, if_false]
        rw [e, List.take_succ_cons]
        simp only [List.mem_cons, not_or]
        exact ⟨hxc, ih2 h0⟩

/-- The first piece returned by `Split`: the text before the first separator, or
the whole string when there is none. -/
theorem Split_headD (s sep : Str) :
    (Split s sep).headD [] = if Index s sep < 0 then s else s.take (Index s sep).toNat := by
  unfold Split SplitFuel
  simp only
  split <;> rfl

theorem Split_head_no_sep (s : Str) (x : Char) : x ∉ (Split s [x]).headD [] := by
  rw [Split_headD]
  have h := IndexFrom_singleton_not_mem x s 0
  unfold Index
  split
  · exact h.1 (by assumption)
  · have := h.2 (by omega)
    simpa using this

theorem Trim_subset (s cutset : Str) : ∀ c ∈ Trim s cutset, c ∈ s := by
  intro c hc
  unfold Trim at hc
  exact (List.dropWhile_suffix _).subset ((List.rdropWhile_prefix _ _).subset hc)

theorem Trim_getLast (s cutset : Str) (h : Trim s cutset ≠ []) :
    cutset.contains ((Trim s cutset).getLast h) = false := by
  unfold Trim at h ⊢
  have := List.rdropWhile_last_not (fun c => cutset.contains c) _ h
  simpa using this

/-! ## `NormalizeProfileURL` -/

/-- C1: `NormalizeProfileURL("https://x.example/in/johndoe/?trk=abc")` and
`NormalizeProfileURL("https://x.example/in/johndoe")` both equal
`"https://x.example/in/johndoe"`. -/
theorem NormalizeProfileURL_johndoe :
    NormalizeProfileURL "https://x.example/in/johndoe/?trk=abc".toList
        = "https://x.example/in/johndoe".toList ∧
      NormalizeProfileURL "https://x.example/in/johndoe".toList
        = "https://x.example/in/johndoe".toList := by
  constructor <;> decide

theorem NormalizeProfileURL_no_query (raw : Str) : '?' ∉ NormalizeProfileURL raw := by
  unfold NormalizeProfileURL
  have h0 : '?' ∉ (Split raw "?".toList).headD [] := Split_head_no_sep raw '?'
  by_cases hr : raw = []
  · simp [hr]
  · simp only [hr, if_false]
    split
    · exact h0
    · intro hmem
      rcases List.mem_append.1 hmem with h | h
      · exact h0 (List.mem_of_mem_take h)
      · exact h0 (List.mem_of_mem_drop (Trim_subset _ _ _ h))

/-- C2, counterexample: a URL without the `/in/` marker keeps its trailing slash,
and so does a URL whose handle is empty. -/
theorem NormalizeProfileURL_trailing_slash_kept :
    (NormalizeProfileURL "https://x.example/".toList).getLast? = some '/' ∧
      (NormalizeProfileURL "https://x.example/in/".toList).getLast? = some '/' := by
  constructor <;> decide

/-- C2, amended: for every string the result of `NormalizeProfileURL` contains no
`?`; and when the part before the first `?` contains the marker `/in/` at index
`i` and the text after the first marker has a code point other than `/`, the
result does not end with `/`. -/
theorem NormalizeProfileURL_stripped (raw : Str) :
    '?' ∉ NormalizeProfileURL raw ∧
      (Index ((Split raw "?".toList).headD []) "/in/".toList ≠ -1 →
        (∃ c ∈ ((Split raw "?".toList).headD []).drop
            (Index ((Split raw "?".toList).headD []) "/in/".toList + 4).toNat, c ≠ '/') →
        (NormalizeProfileURL raw).getLast? ≠ some '/') := by
  refine ⟨NormalizeProfileURL_no_query raw, ?_⟩
  intro hi hex
  obtain ⟨c, hc, hne⟩ := hex
  have hraw : raw ≠ [] := by
    intro h
    subst h
    simp [Split, SplitFuel, Index, IndexFrom] at hc
  unfold NormalizeProfileURL
  simp only [hraw, if_false, hi]
  set h0 := (Split raw "?".toList).headD [] with hh0
  set k := (Index h0 "/in/".toList + 4).toNat with hk
  have htrim : Trim (h0.drop k) "/".toList ≠ [] := by
    intro hnil
    unfold Trim at hnil
    rw [List.rdropWhile_eq_nil_iff] at hnil
    have hall : ∀ x ∈ h0.drop k, x = '/' := by
      have hd : (h0.drop k).dropWhile (fun c => "/".toList.contains c) = [] := by
        by_contra hd
        have h1 := List.head_dropWhile_not (fun c => "/".toList.contains c) (h0.drop k) hd
        have h2 := hnil _ (List.head_mem hd)
        simp only [h1] at h2
        exact Bool.false_ne_true h2
      rw [List.dropWhile_eq_nil_iff] at hd
      intro x hx
      simpa using hd x hx
    exact hne (hall c hc)
  rw [List.getLast?_append_of_ne_nil _ htrim, List.getLast?_eq_getLast _ htrim]
  intro heq
  have hl := Trim_getLast (h0.drop k) "/".toList htrim
  simp only [Option.some.injEq] at heq
  rw [heq] at hl
  simp at hl

/-- C2, witness: the URL of the specification, with query string and trailing
slash. -/
theorem NormalizeProfileURL_stripped_witness :
    Index ((Split "https://x.example/in/johndoe/?trk=abc".toList "?".toList).headD [])
        "/in/".toList ≠ -1 ∧
      '?' ∉ NormalizeProfileURL "https://x.example/in/johndoe/?trk=abc".toList ∧
      (NormalizeProfileURL "https://x.example/in/johndoe/?trk=abc".toList).getLast?
        ≠ some '/' :=
  ⟨by decide,
    (NormalizeProfileURL_stripped "https://x.example/in/johndoe/?trk=abc".toList).1,
    (NormalizeProfileURL_stripped "https://x.example/in/johndoe/?trk=abc".toList).2
      (by decide) ⟨'j', by decide, by decide⟩⟩

/-! ## `RemoveDup` -/

theorem ToLower_eq_nil (ul : Char → Char) (s : Str) : ToLower ul s = [] ↔ s = [] := by
  simp [ToLower]

/-- The key is never the empty string: the fallback always contains `|`. -/
theorem dedupKey_ne_nil (ul : Char → Char) (c : Contact) : dedupKey ul c ≠ [] := by
  unfold dedupKey
  simp only
  split
  · simp [ToLower_eq_nil]
  · assumption

/-- The key as the specification words it. -/
theorem dedupKey_eq (ul : Char → Char) (c : Contact) :
    dedupKey ul c =
      if c.LinkedIn = [] then ToLower ul (c.Name ++ "|".toList ++ c.Company)
      else ToLower ul c.LinkedIn := by
  unfold dedupKey
  simp only [ToLower_eq_nil]

theorem foldl_RemoveDupStep (ul : Char → Char) (cs : List Contact) (seen : List Str)
    (out : List Contact) :
    (cs.foldl (RemoveDupStep ul) (seen, out)).2 = out ++ keepFirst (dedupKey ul) seen cs := by
  induction cs generalizing seen out with
  | nil => simp [keepFirst]
  | cons c cs ih =>
    simp only [List.foldl_cons, keepFirst]
    by_cases h : dedupKey ul c ∈ seen
    · simp only [RemoveDupStep, h, not_true_eq_false, and_false, if_false, if_true]
      exact ih seen out
    · simp only [RemoveDupStep, h, not_false_eq_true, and_true, dedupKey_ne_nil, ne_eq,
        if_true, if_false]
      rw [ih]
      simp

theorem RemoveDup_eq_keepFirst (ul : Char → Char) (cs : List Contact) :
    RemoveDup ul cs = keepFirst (dedupKey ul) [] cs := by
  unfold RemoveDup
  rw [foldl_RemoveDupStep]
  simp

theorem keepFirst_sublist (key : Contact → Str) (seen : List Str) (cs : List Contact) :
    (keepFirst key seen cs).Sublist cs := by
  induction cs generalizing seen with
  | nil => simp [keepFirst]
  | cons c cs ih =>
    unfold keepFirst
    split
    · exact (ih seen).cons c
    · exact (ih _).cons₂ c

theorem keepFirst_keys (key : Contact → Str) (seen : List Str) (cs : List Contact) :
    (∀ c ∈ keepFirst key seen cs, key c ∉ seen) ∧ ((keepFirst key seen cs).map key).Nodup := by
  induction cs generalizing seen with
  | nil => simp [keepFirst]
  | cons c cs ih =>
    unfold keepFirst
    split
    · exact ih seen
    · rename_i hc
      obtain ⟨h1, h2⟩ := ih (key c :: seen)
      constructor
      · intro d hd
        rcases List.mem_cons.1 hd with rfl | hd
        · exact hc
        · exact fun hm => h1 d hd (List.mem_cons_of_mem _ hm)
      · rw [List.map_cons, List.nodup_cons]
        refine ⟨?_, h2⟩
        intro hm
        obtain ⟨d, hd, hkd⟩ := List.mem_map.1 hm
        exact h1 d hd (by rw [hkd]; exact List.mem_cons_self _ _)

theorem keepFirst_eq_filter (key : Contact → Str) (seen : List Str) (cs : List Contact)
    (n : Nat) :
    keepFirst key seen cs =
      ((cs.enumFrom n).filter (fun p =>
        decide (key p.2 ∉ seen ∧ key p.2 ∉ (cs.take (p.1 - n)).map key))).map Prod.snd := by
  induction cs generalizing seen n with
  | nil => simp [keepFirst]
  | cons c cs ih =>
    have hcongr : ∀ seen2 : List Str, (∀ k, k ∈ seen2 ↔ (k ∈ seen ∨ k = key c)) →
        (cs.enumFrom (n + 1)).filter (fun p =>
          decide (key p.2 ∉ seen ∧ key p.2 ∉ ((c :: cs).take (p.1 - n)).map key))
        = (cs.enumFrom (n + 1)).filter (fun p =>
          decide (key p.2 ∉ seen2 ∧ key p.2 ∉ (cs.take (p.1 - (n + 1))).map key)) := by
      intro seen2 hs
      apply List.filter_congr
      intro p hp
      have hge : n + 1 ≤ p.1 := by
        have := List.le_fst_of_mem_enumFrom (x := p) hp
        exact this
      have e : p.1 - n = (p.1 - (n + 1)) + 1 := by omega
      rw [e, List.take_succ_cons, List.map_cons]
      simp only [List.mem_cons, not_or, hs, decide_eq_decide]
      tauto
    simp only [List.enumFrom_cons, keepFirst]
    by_cases h : key c ∈ seen
    · simp only [h, if_true]
      rw [List.filter_cons]
      simp only [h, not_true_eq_false, false_and, decide_False, Bool.false_eq_true, if_false]
      rw [ih seen (n + 1), hcongr seen]
      intro k
      constructor
      · exact fun hk => Or.inl hk
      · rintro (hk | rfl)
        · exact hk
        · exact h
    · simp only [h, if_false]
      rw [List.filter_cons]
      simp only [h, not_false_eq_true, Nat.sub_self, List.take_zero, List.map_nil,
        List.not_mem_nil, and_self, decide_True, if_true, List.map_cons]
      rw [ih (key c :: seen) (n + 1), hcongr (key c :: seen)]
      intro k
      simp only [List.mem_cons]
      tauto

/-- C3: `RemoveDup(cs)` is a subsequence of `cs` (the retained contacts keep
their relative order) and is at most as long as `cs`. -/
theorem RemoveDup_sublist (ul : Char → Char) (cs : List Contact) :
    (RemoveDup ul cs).Sublist cs ∧ (RemoveDup ul cs).length ≤ cs.length := by
  rw [RemoveDup_eq_keepFirst]
  exact ⟨keepFirst_sublist _ _ _, (keepFirst_sublist _ _ _).length_le⟩

/-- C4: the dedup keys of the contacts of `RemoveDup(cs)` are pairwise distinct,
the key of a contact being its lower-cased `LinkedIn` URL, or lower-cased
`Name + "|" + Company` when the URL is empty. -/
theorem RemoveDup_keys_distinct (ul : Char → Char) (cs : List Contact) :
    (RemoveDup ul cs).Pairwise (fun a b =>
      (if a.LinkedIn = [] then ToLower ul (a.Name ++ "|".toList ++ a.Company)
        else ToLower ul a.LinkedIn) ≠
      (if b.LinkedIn = [] then ToLower ul (b.Name ++ "|".toList ++ b.Company)
        else ToLower ul b.LinkedIn)) ∧
    (∀ c, dedupKey ul c =
      if c.LinkedIn = [] then ToLower ul (c.Name ++ "|".toList ++ c.Company)
      else ToLower ul c.LinkedIn) := by
  refine ⟨?_, dedupKey_eq ul⟩
  have h := (keepFirst_keys (dedupKey ul) [] cs).2
  rw [← RemoveDup_eq_keepFirst, List.Nodup, List.pairwise_map] at h
  simpa only [dedupKey_eq] using h

/-- C5: the contact at position `i` of `cs` is retained by `RemoveDup` exactly
when no contact at an earlier position (`cs.take i`) has the same dedup key;
nothing else is dropped, in particular not a contact whose fields are all empty. -/
theorem RemoveDup_retains_first_seen (ul : Char → Char) (cs : List Contact) :
    RemoveDup ul cs =
        (cs.enum.filter (fun p =>
          decide (dedupKey ul p.2 ∉ (cs.take p.1).map (dedupKey ul)))).map Prod.snd ∧
      RemoveDup ul [⟨[], [], [], [], []⟩] = [⟨[], [], [], [], []⟩] := by
  constructor
  · rw [RemoveDup_eq_keepFirst, keepFirst_eq_filter (dedupKey ul) [] cs 0]
    simp [List.enum]
  · rw [RemoveDup_eq_keepFirst]
    simp [keepFirst]

theorem RemoveDup_johndoe_pair (ul : Char → Char) :
    RemoveDup ul
        [⟨"John".toList, [], [], [], "https://x.example/in/johndoe/?trk=abc".toList⟩,
          ⟨"John".toList, [], [], [], "https://x.example/in/johndoe".toList⟩]
      = [⟨"John".toList, [], [], [], "https://x.example/in/johndoe/?trk=abc".toList⟩,
          ⟨"John".toList, [], [], [], "https://x.example/in/johndoe".toList⟩] := by
  rw [RemoveDup_eq_keepFirst]
  have hlen : ∀ a b : Str, a.length ≠ b.length → ToLower ul a ≠ ToLower ul b := by
    intro a b h heq
    apply h
    have := congrArg List.length heq
    simpa [ToLower] using this
  simp only [keepFirst, List.not_mem_nil, if_false, List.mem_singleton, dedupKey_eq]
  rw [if_neg]
  simp only [String.toList]
  rw [if_neg (by decide), if_neg (by decide)]
  exact fun h => hlen _ _ (by decide) h.symm

/-- C6, the code at the failing input: two contacts whose URLs differ only in the
query string and the trailing slash have the same normalised URL, yet `RemoveDup`
keeps both of them, also when they are the contacts captured by
`Engine.captureAndConnect`, which stores the link of the page as it is. -/
theorem RemoveDup_keeps_unnormalized_duplicate (ul : Char → Char) :
    NormalizeProfileURL "https://x.example/in/johndoe/?trk=abc".toList
        = NormalizeProfileURL "https://x.example/in/johndoe".toList ∧
      RemoveDup ul
          [⟨"John".toList, [], [], [], "https://x.example/in/johndoe/?trk=abc".toList⟩,
            ⟨"John".toList, [], [], [], "https://x.example/in/johndoe".toList⟩]
        = [⟨"John".toList, [], [], [], "https://x.example/in/johndoe/?trk=abc".toList⟩,
            ⟨"John".toList, [], [], [], "https://x.example/in/johndoe".toList⟩] ∧
      (RemoveDup ul (captureAndConnect ⟨60, 0, [], true⟩
          ⟨none, none, .ok 2,
            .ok [⟨"John".toList, [], [], [], "https://x.example/in/johndoe/?trk=abc".toList⟩,
              ⟨"John".toList, [], [], [], "https://x.example/in/johndoe".toList⟩],
            fun _ => ⟨none, false, false⟩⟩).contacts).length = 2 := by
  refine ⟨by decide, RemoveDup_johndoe_pair ul, ?_⟩
  have hc : (captureAndConnect ⟨60, 0, [], true⟩
      ⟨none, none, .ok 2,
        .ok [⟨"John".toList, [], [], [], "https://x.example/in/johndoe/?trk=abc".toList⟩,
          ⟨"John".toList, [], [], [], "https://x.example/in/johndoe".toList⟩],
        fun _ => ⟨none, false, false⟩⟩).contacts
      = [⟨"John".toList, [], [], [], "https://x.example/in/johndoe/?trk=abc".toList⟩,
          ⟨"John".toList, [], [], [], "https://x.example/in/johndoe".toList⟩] := rfl
  rw [hc, RemoveDup_johndoe_pair]
  rfl

/-! ## The per-page cap -/

theorem tryConnect_trace_no_invite (pg : ConnectPage) :
    (tryConnect pg).2.countP Event.isInviteSent = 0 := by
  unfold tryConnect
  split <;> simp [Event.isInviteSent]

theorem captureLoop_cap (cfg : RunConfig) (connect : Nat → ConnectPage)
    (result : List Profile) (i : Nat) (st : CaptureState)
    (hle : st.invitesSent ≤ cfg.MaxConnectsPerPage)
    (hcount : (st.trace.countP Event.isInviteSent : Int) = st.invitesSent) :
    (captureLoop cfg connect result i st).invitesSent ≤ cfg.MaxConnectsPerPage ∧
      (((captureLoop cfg connect result i st).trace.countP Event.isInviteSent : Nat) : Int)
        = (captureLoop cfg connect result i st).invitesSent := by
  induction result generalizing i st with
  | nil => exact ⟨hle, hcount⟩
  | cons profile rest ih =>
    unfold captureLoop
    split
    · exact ⟨hle, hcount⟩
    · simp only
      split
      · rename_i hlt
        split
        · apply ih
          · simp only; omega
          · simp only [List.countP_append, tryConnect_trace_no_invite]
            simp [Event.isInviteSent, hcount]
        · apply ih
          · exact hle
          · simp only [List.countP_append, tryConnect_trace_no_invite]
            simp [Event.isInviteSent, hcount]
      · apply ih
        · exact hle
        · simp only [List.countP_append]
          simp [Event.isInviteSent, hcount]

theorem scraperConnectLoop_cap (maxConnects : Int) (attempt : Nat → ScraperAttempt)
    (contacts : List Contact) (i : Nat) (connectsSent : Int) (hle : connectsSent ≤ maxConnects) :
    scraperConnectLoop maxConnects attempt contacts i connectsSent ≤ maxConnects := by
  induction contacts generalizing i connectsSent with
  | nil => exact hle
  | cons c rest ih =>
    unfold scraperConnectLoop
    split
    · exact hle
    · split
      · exact ih _ _ hle
      · split
        · simp only
          split
          · exact ih _ _ (by omega)
          · exact ih _ _ hle
        · exact ih _ _ hle

/-- C7: for every `MaxConnectsPerPage >= 0`, every list of captured profiles and
every outcome of the connect attempts, the invite count returned for one query
and the number of `OnInviteSent` calls are at most the cap, in
`Engine.captureAndConnect`; the count returned by
`Scraper.CaptureVisibleAndConnect` is at most its cap as well. -/
theorem invites_within_cap (cfg : RunConfig) (w : QueryWorld) (maxConnects : Int)
    (sw : ScraperWorld) (h : 0 ≤ cfg.MaxConnectsPerPage) (hs : 0 ≤ maxConnects) :
    (captureAndConnect cfg w).invitesSent ≤ cfg.MaxConnectsPerPage ∧
      (((captureAndConnect cfg w).trace.countP Event.isInviteSent : Nat) : Int)
        ≤ cfg.MaxConnectsPerPage ∧
      (((captureAndConnect cfg w).trace.countP Event.isInviteSent : Nat) : Int)
        = (captureAndConnect cfg w).invitesSent ∧
      (CaptureVisibleAndConnect maxConnects sw).2 ≤ maxConnects := by
  have hE : (captureAndConnect cfg w).invitesSent ≤ cfg.MaxConnectsPerPage ∧
      (((captureAndConnect cfg w).trace.countP Event.isInviteSent : Nat) : Int)
        = (captureAndConnect cfg w).invitesSent := by
    unfold captureAndConnect
    split
    · simpa using h
    · exact captureLoop_cap cfg w.connect _ 0 ⟨[], 0, []⟩ h (by simp)
  have hS : (CaptureVisibleAndConnect maxConnects sw).2 ≤ maxConnects := by
    unfold CaptureVisibleAndConnect
    split
    · simpa using hs
    · exact scraperConnectLoop_cap maxConnects sw.attempt _ 0 0 hs
  exact ⟨hE.1, hE.2 ▸ hE.1, hE.2, hS⟩

/-- C7, witness: a cap of one and a page of two cards that both offer a connect
control. -/
theorem invites_within_cap_witness :
    (0 : Int) ≤ 1 ∧
      (captureAndConnect ⟨60, 1, [], true⟩
        ⟨none, none, .ok 2,
          .ok [⟨"Ann".toList, [], [], [], "u1".toList⟩, ⟨"Bob".toList, [], [], [], "u2".toList⟩],
          fun _ => ⟨none, true, true⟩⟩).invitesSent = 1 ∧
      (CaptureVisibleAndConnect 1
        ⟨.ok [⟨some "Ann".toList, none, none, none, some "u1".toList⟩,
            ⟨some "Bob".toList, none, none, none, some "u2".toList⟩],
          fun _ => ⟨.ok true, .ok true⟩⟩).2 ≤ 1 := by
  refine ⟨by decide, by decide, ?_⟩
  exact (invites_within_cap ⟨60, 1, [], true⟩
    ⟨none, none, .ok 2,
      .ok [⟨"Ann".toList, [], [], [], "u1".toList⟩, ⟨"Bob".toList, [], [], [], "u2".toList⟩],
      fun _ => ⟨none, true, true⟩⟩ 1
    ⟨.ok [⟨some "Ann".toList, none, none, none, some "u1".toList⟩,
        ⟨some "Bob".toList, none, none, none, some "u2".toList⟩],
      fun _ => ⟨.ok true, .ok true⟩⟩ (by decide) (by decide)).2.2.2

/-! ## `Engine.Run` -/

theorem login_trace_openedQuery (w : LoginWorld) :
    (login w).2.filterMap Event.openedQuery = [] := by
  unfold login
  simp only
  repeat' split
  all_goals simp [Event.openedQuery]

theorem login_trace_logs (w : LoginWorld) :
    ∀ ev ∈ (login w).2, ev = Event.Log .loggingIn ∨ ev = Event.Log .loginDone := by
  unfold login
  simp only
  repeat' split
  all_goals simp

theorem login_fails_iff (w : LoginWorld) :
    (login w).1 ≠ none ↔
      (w.navigate ≠ none ∨ w.waitReady ≠ none ∨ w.sendKeys ≠ none ∨ w.click ≠ none) := by
  unfold login
  simp only
  repeat' split
  all_goals simp_all

theorem tryConnect_trace_openedQuery (pg : ConnectPage) :
    (tryConnect pg).2.filterMap Event.openedQuery = [] := by
  unfold tryConnect
  split <;> simp [Event.openedQuery]

theorem captureLoop_openedQuery (cfg : RunConfig) (connect : Nat → ConnectPage)
    (result : List Profile) (i : Nat) (st : CaptureState) :
    (captureLoop cfg connect result i st).trace.filterMap Event.openedQuery
      = st.trace.filterMap Event.openedQuery := by
  induction result generalizing i st with
  | nil => rfl
  | cons profile rest ih =>
    unfold captureLoop
    split
    · rfl
    · simp only
      split
      · split
        · rw [ih]
          simp [List.filterMap_append, tryConnect_trace_openedQuery, Event.openedQuery]
        · rw [ih]
          simp [List.filterMap_append, tryConnect_trace_openedQuery, Event.openedQuery]
      · rw [ih]
        simp [List.filterMap_append, Event.openedQuery]

theorem captureAndConnect_openedQuery (cfg : RunConfig) (w : QueryWorld) :
    (captureAndConnect cfg w).trace.filterMap Event.openedQuery = [] := by
  unfold captureAndConnect
  split
  · rfl
  · simp only [captureLoop_openedQuery]
    rfl

/-- Every call of `processQuery` logs its query once, as its first callback. -/
theorem processQuery_openedQuery (query : Str) (cfg : RunConfig) (w : QueryWorld) :
    (processQuery query cfg w).2.filterMap Event.openedQuery = [query] := by
  unfold processQuery
  simp only
  split
  · simp [Event.openedQuery]
  · split
    · simp [Event.openedQuery]
    · split
      · simp only [List.filterMap_append, captureAndConnect_openedQuery]
        split <;> simp [Event.openedQuery]
      · simp only [List.filterMap_append, captureAndConnect_openedQuery]
        split <;> simp [Event.openedQuery]

theorem runQueries_openedQuery (cfg : RunConfig) (w : Nat → QueryWorld) (qs : List Str)
    (i : Nat) (tr : List Event) :
    (runQueries cfg w qs i tr).filterMap Event.openedQuery
      = tr.filterMap Event.openedQuery ++ qs := by
  induction qs generalizing i tr with
  | nil => simp [runQueries]
  | cons q rest ih =>
    unfold runQueries
    simp only
    split
    · rw [ih]
      simp [List.filterMap_append, processQuery_openedQuery, Event.openedQuery]
    · rw [ih]
      simp [List.filterMap_append, processQuery_openedQuery, Event.openedQuery]

/-- C8: given a successful login, `Engine.Run` invokes `processQuery` exactly once
for every query, in list order, whatever the browser answers for each query (so
whichever queries fail), and the error it returns is `nil`.  The invocations
are read off the `Abrindo busca` line that opens every `processQuery`. -/
theorem Run_processes_every_query (cfg : RunConfig) (w : World)
    (hlogin : (login w.login).1 = none) :
    (Run cfg w).2.filterMap Event.openedQuery = cfg.Queries ∧ (Run cfg w).1 = none := by
  unfold Run
  simp only [hlogin]
  refine ⟨?_, trivial⟩
  rw [runQueries_openedQuery]
  split <;> [split; skip] <;>
    simp [List.filterMap_append, login_trace_openedQuery, Event.openedQuery]

/-- C8, witness: two queries, the first of which fails at navigation. -/
theorem Run_processes_every_query_witness :
    (login ⟨none, none, none, none⟩).1 = none ∧
      (Run ⟨60, 3, ["a".toList, "b".toList], true⟩
        ⟨⟨none, none, none, none⟩, none,
          fun i => ⟨if i = 0 then some ⟨"net".toList⟩ else none, none, .ok 0, .ok [],
            fun _ => ⟨none, false, false⟩⟩⟩).2.filterMap Event.openedQuery
        = ["a".toList, "b".toList] ∧
      (Run ⟨60, 3, ["a".toList, "b".toList], true⟩
        ⟨⟨none, none, none, none⟩, none,
          fun i => ⟨if i = 0 then some ⟨"net".toList⟩ else none, none, .ok 0, .ok [],
            fun _ => ⟨none, false, false⟩⟩⟩).1 = none :=
  ⟨rfl,
    Run_processes_every_query ⟨60, 3, ["a".toList, "b".toList], true⟩
      ⟨⟨none, none, none, none⟩, none,
        fun i => ⟨if i = 0 then some ⟨"net".toList⟩ else none, none, .ok 0, .ok [],
          fun _ => ⟨none, false, false⟩⟩⟩ rfl⟩

/-- C9: `Engine.Run` returns a non-nil error if and only if the login fails, that
is if and only if one of the four browser steps of `Engine.login` fails; when the
login fails with `err`, `Run` returns `err`, opens no query and fires neither
`OnCaptured` nor `OnInviteSent`. -/
theorem Run_error_iff_login_fails (cfg : RunConfig) (w : World) :
    ((Run cfg w).1 ≠ none ↔ (login w.login).1 ≠ none) ∧
      ((login w.login).1 ≠ none ↔
        (w.login.navigate ≠ none ∨ w.login.waitReady ≠ none ∨ w.login.sendKeys ≠ none ∨
          w.login.click ≠ none)) ∧
      (∀ err, (login w.login).1 = some err →
        (Run cfg w).1 = some err ∧
          (Run cfg w).2.filterMap Event.openedQuery = [] ∧
          ∀ ev ∈ (Run cfg w).2, ev.isCaptured = false ∧ ev.isInviteSent = false) := by
  refine ⟨?_, login_fails_iff w.login, ?_⟩
  · unfold Run
    simp only
    split
    · rename_i err h
      simp [h]
    · rename_i h
      simp [h]
  · intro err h
    unfold Run
    simp only [h]
    refine ⟨trivial, login_trace_openedQuery _, ?_⟩
    intro ev hev
    rcases login_trace_logs _ ev hev with rfl | rfl <;> exact ⟨rfl, rfl⟩

/-- C9, witness: the login page cannot be reached. -/
theorem Run_error_iff_login_fails_witness :
    (login ⟨some ⟨"net".toList⟩, none, none, none⟩).1 = some ⟨"net".toList⟩ ∧
      (Run ⟨60, 3, ["a".toList], true⟩
        ⟨⟨some ⟨"net".toList⟩, none, none, none⟩, none,
          fun _ => ⟨none, none, .ok 0, .ok [], fun _ => ⟨none, false, false⟩⟩⟩).1
        = some ⟨"net".toList⟩ :=
  ⟨rfl,
    ((Run_error_iff_login_fails ⟨60, 3, ["a".toList], true⟩
      ⟨⟨some ⟨"net".toList⟩, none, none, none⟩, none,
        fun _ => ⟨none, none, .ok 0, .ok [], fun _ => ⟨none, false, false⟩⟩⟩).2.2
      ⟨"net".toList⟩ rfl).1⟩

/-! ## Success of a connect attempt -/

/-- In `Scraper.CaptureVisibleAndConnect` an attempt whose send script does not
report a click never raises the counter. -/
theorem scraperConnectLoop_unconfirmed (maxConnects : Int) (attempt : Nat → ScraperAttempt)
    (hsend : ∀ j, (attempt j).send ≠ .ok true) (contacts : List Contact) (i : Nat)
    (connectsSent : Int) :
    scraperConnectLoop maxConnects attempt contacts i connectsSent = connectsSent := by
  induction contacts generalizing i with
  | nil => rfl
  | cons c rest ih =>
    unfold scraperConnectLoop
    split
    · rfl
    · split
      · exact ih _
      · split
        · simp only
          split
          · rename_i hs
            exfalso
            apply hsend i
            revert hs
            cases (attempt i).send <;> simp
          · exact ih _
        · exact ih _

/-- C10, the code at the failing input: in `Engine.captureAndConnect` an attempt
that finds the connect control but no send control is counted and reported
through `OnInviteSent`. -/
theorem captureAndConnect_counts_unconfirmed_click :
    (captureAndConnect ⟨60, 3, [], true⟩
        ⟨none, none, .ok 1, .ok [⟨"Ann".toList, [], [], [], "u1".toList⟩],
          fun _ => ⟨none, true, false⟩⟩).invitesSent = 1 ∧
      (captureAndConnect ⟨60, 3, [], true⟩
        ⟨none, none, .ok 1, .ok [⟨"Ann".toList, [], [], [], "u1".toList⟩],
          fun _ => ⟨none, true, false⟩⟩).trace
        = [Event.Captured ⟨"Ann".toList, [], [], [], "u1".toList⟩,
            Event.Log (.tryingConnect [] "Ann".toList),
            Event.InviteSent ⟨"Ann".toList, [], [], [], "u1".toList⟩] := by
  constructor <;> rfl

/-! ## The scenario of one query, two cards and a cap of one -/

theorem login_trace_no_contact (w : LoginWorld) :
    (login w).2.filter Event.isCaptured = [] ∧ (login w).2.filter Event.isInviteSent = [] := by
  unfold login
  simp only
  repeat' split
  all_goals simp [Event.isCaptured, Event.isInviteSent]

theorem engineScript_two_links (lowerJS : Str → Str) (card1 card2 : Card) (l1 l2 : Link)
    (h1 : card1.link = some l1) (h2 : card2.link = some l2) :
    ∃ p1 p2, engineExtractCard lowerJS card1 = some p1 ∧
      engineExtractCard lowerJS card2 = some p2 ∧
      engineScript lowerJS 2 [card1, card2] = [p1, p2] := by
  have e1 : ∃ p1, engineExtractCard lowerJS card1 = some p1 := by
    unfold engineExtractCard
    rw [h1]
    exact ⟨_, rfl⟩
  have e2 : ∃ p2, engineExtractCard lowerJS card2 = some p2 := by
    unfold engineExtractCard
    rw [h2]
    exact ⟨_, rfl⟩
  obtain ⟨p1, hp1⟩ := e1
  obtain ⟨p2, hp2⟩ := e2
  refine ⟨p1, p2, hp1, hp2, ?_⟩
  simp [engineScript, engineScriptLoop, hp1, hp2]

theorem runQueries_single_filter (f : Event → Bool) (hf : ∀ l, f (Event.Log l) = false)
    (cfg : RunConfig) (w : Nat → QueryWorld) (q : Str) (tr : List Event) :
    (runQueries cfg w [q] 0 tr).filter f
      = tr.filter f ++ (processQuery q cfg (w 0)).2.filter f := by
  unfold runQueries
  simp only
  split <;> simp [runQueries, List.filter_append, hf]

/-- C11: for `Queries = ["sales manager"]`, `MaxCardsRead = 2` and
`MaxConnectsPerPage = 1`, on a page of two cards that both have a profile link,
where the connect script of the first attempt finds the connect control of the
first card, the run fires `OnCaptured` exactly twice, once per card in order, and
`OnInviteSent` exactly once, for the contact of the first card. -/
theorem Run_two_cards_one_invite (lowerJS : Str → Str) (headless : Bool) (w : World)
    (card1 card2 : Card) (l1 l2 : Link)
    (h1 : card1.link = some l1) (h2 : card2.link = some l2)
    (hlogin : (login w.login).1 = none)
    (hnav : (w.query 0).navigate = none) (hwait : (w.query 0).waitReady = none)
    (hcap : (w.query 0).capture = .ok (engineScript lowerJS 2 [card1, card2]))
    (herr : ((w.query 0).connect 0).evalErr = none)
    (hfound : ((w.query 0).connect 0).found = true) :
    ∃ p1 p2, engineExtractCard lowerJS card1 = some p1 ∧
      engineExtractCard lowerJS card2 = some p2 ∧
      (Run ⟨2, 1, ["sales manager".toList], headless⟩ w).2.filter Event.isCaptured
        = [Event.Captured ⟨p1.name, p1.title, p1.company, p1.location, p1.linkedin_url⟩,
            Event.Captured ⟨p2.name, p2.title, p2.company, p2.location, p2.linkedin_url⟩] ∧
      (Run ⟨2, 1, ["sales manager".toList], headless⟩ w).2.filter Event.isInviteSent
        = [Event.InviteSent ⟨p1.name, p1.title, p1.company, p1.location, p1.linkedin_url⟩] := by
  obtain ⟨p1, p2, hp1, hp2, hs⟩ := engineScript_two_links lowerJS card1 card2 l1 l2 h1 h2
  refine ⟨p1, p2, hp1, hp2, ?_⟩
  generalize "sales manager".toList = q
  rw [hs] at hcap
  have htry : tryConnect ((w.query 0).connect 0) = (true, []) := by
    unfold tryConnect
    rw [herr, hfound]
  have hl := login_trace_no_contact w.login
  have hcc : (captureAndConnect ⟨2, 1, [q], headless⟩ (w.query 0)).trace
      = [Event.Captured ⟨p1.name, p1.title, p1.company, p1.location, p1.linkedin_url⟩,
          Event.Log (.tryingConnect p1.company p1.name),
          Event.InviteSent ⟨p1.name, p1.title, p1.company, p1.location, p1.linkedin_url⟩,
          Event.Captured ⟨p2.name, p2.title, p2.company, p2.location, p2.linkedin_url⟩] ∧
      (captureAndConnect ⟨2, 1, [q], headless⟩ (w.query 0)).err = none := by
    unfold captureAndConnect
    rw [hcap]
    simp [captureLoop, htry]
  have hpq : (processQuery q ⟨2, 1, [q], headless⟩
        (w.query 0)).2.filter Event.isCaptured
      = [Event.Captured ⟨p1.name, p1.title, p1.company, p1.location, p1.linkedin_url⟩,
          Event.Captured ⟨p2.name, p2.title, p2.company, p2.location, p2.linkedin_url⟩] ∧
      (processQuery q ⟨2, 1, [q], headless⟩
        (w.query 0)).2.filter Event.isInviteSent
      = [Event.InviteSent ⟨p1.name, p1.title, p1.company, p1.location, p1.linkedin_url⟩] := by
    unfold processQuery
    simp only [hnav, hwait, hcc.2, hcc.1]
    constructor <;> cases (w.query 0).count <;>
      simp [List.filter_cons, Event.isCaptured, Event.isInviteSent]
  unfold Run
  simp only [hlogin]
  rw [runQueries_single_filter Event.isCaptured (fun _ => rfl),
    runQueries_single_filter Event.isInviteSent (fun _ => rfl), hpq.1, hpq.2]
  cases headless <;> cases w.minimize <;>
    simp [List.filter_append, hl.1, hl.2, Event.isCaptured, Event.isInviteSent]

/-- C11, witness: two cards with a link each; every connect script finds a
control. -/
theorem Run_two_cards_one_invite_witness :
    (Run ⟨2, 1, ["sales manager".toList], true⟩
      ⟨⟨none, none, none, none⟩, none,
        fun _ => ⟨none, none, .ok 2,
          .ok (engineScript id 2
            [⟨some ⟨"Ann".toList, "u1".toList⟩, [], [], [], none⟩,
              ⟨some ⟨"Bob".toList, "u2".toList⟩, [], [], [], none⟩]),
          fun _ => ⟨none, true, false⟩⟩⟩).2.filter Event.isInviteSent
      = [Event.InviteSent ⟨"Ann".toList, [], [], [], "u1".toList⟩] := by
  obtain ⟨p1, p2, hp1, _, _, hi⟩ := Run_two_cards_one_invite id true
    ⟨⟨none, none, none, none⟩, none,
      fun _ => ⟨none, none, .ok 2,
        .ok (engineScript id 2
          [⟨some ⟨"Ann".toList, "u1".toList⟩, [], [], [], none⟩,
            ⟨some ⟨"Bob".toList, "u2".toList⟩, [], [], [], none⟩]),
        fun _ => ⟨none, true, false⟩⟩⟩
    ⟨some ⟨"Ann".toList, "u1".toList⟩, [], [], [], none⟩
    ⟨some ⟨"Bob".toList, "u2".toList⟩, [], [], [], none⟩
    ⟨"Ann".toList, "u1".toList⟩ ⟨"Bob".toList, "u2".toList⟩ rfl rfl rfl rfl rfl rfl rfl rfl
  rw [hi]
  have : p1 = ⟨"Ann".toList, [], [], [], "u1".toList⟩ := by
    have h : engineExtractCard id ⟨some ⟨"Ann".toList, "u1".toList⟩, [], [], [], none⟩
        = some ⟨"Ann".toList, [], [], [], "u1".toList⟩ := by rfl
    rw [h] at hp1
    exact (Option.some.inj hp1).symm
  rw [this]

/-! ## The ledger kept by the web entry point -/

/-- Every record that the closures add to the ledger carries the first query. -/
theorem serveCallbacks_query (email : Str) (cleanQueries : List Str) (env : Nat → InviteEnv)
    (events : List Event) (k : Nat) (ledger : List InviteRecord) :
    ∀ r ∈ serveCallbacks email cleanQueries env events k ledger,
      r ∈ ledger ∨ r.Query = cleanQueries.headD [] := by
  induction events generalizing k ledger with
  | nil =>
    intro r hr
    exact Or.inl hr
  | cons ev rest ih =>
    intro r hr
    cases ev with
    | Log line => exact ih k ledger r hr
    | Captured c => exact ih k ledger r hr
    | InviteSent c =>
      simp only [serveCallbacks] at hr
      rcases ih _ _ r hr with h | h
      · unfold OnInviteSent at h
        split at h
        · exact Or.inl h
        · rename_i invite hrec
          unfold AppendInvite at h
          split at h
          · exact Or.inl h
          · rcases List.mem_append.1 h with h | h
            · exact Or.inl h
            · right
              rw [List.mem_singleton] at h
              subst h
              unfold OnInviteSentRecord at hrec
              simp only at hrec
              split at hrec
              · cases hrec
              · cases hrec
                rfl
      · exact Or.inr h

/-- C12, the code at the failing input: a run over the queries `a` and `b` sends
its only invite while the query `b` is processed, and the record written to the
ledger carries the query `a`. -/
theorem ledger_query_is_first_query :
    (Run ⟨60, 3, ["a".toList, "b".toList], true⟩
        ⟨⟨none, none, none, none⟩, none,
          fun i => ⟨none, none, .ok 1,
            .ok (if i = 1 then [⟨"Ann".toList, [], [], [], "u1".toList⟩] else []),
            fun _ => ⟨none, true, true⟩⟩⟩).2.filter
          (fun ev => ev.openedQuery.isSome || ev.isInviteSent)
        = [Event.Log (.openingSearch "a".toList), Event.Log (.openingSearch "b".toList),
            Event.InviteSent ⟨"Ann".toList, [], [], [], "u1".toList⟩] ∧
      serveCallbacks "me@x.example".toList ["a".toList, "b".toList]
          (fun _ => ⟨.ok 0, 1000, none⟩)
          (Run ⟨60, 3, ["a".toList, "b".toList], true⟩
            ⟨⟨none, none, none, none⟩, none,
              fun i => ⟨none, none, .ok 1,
                .ok (if i = 1 then [⟨"Ann".toList, [], [], [], "u1".toList⟩] else []),
                fun _ => ⟨none, true, true⟩⟩⟩).2 0 []
        = [⟨1000, "me@x.example".toList, "Ann".toList, [], [], [], "u1".toList, "a".toList⟩] := by
  constructor <;> rfl

/-- C15: the `OnInviteSent` closure of the web entry point appends no record when
the quota check fails with an error or when the count of the week is 200 or
more; when the check succeeds with a count below 200 it hands the record of the
contact to `AppendInvite`, which appends it to the ledger unless the file cannot
be written. -/
theorem OnInviteSent_quota (email : Str) (cleanQueries : List Str) (env : InviteEnv)
    (ledger : List InviteRecord) (contact : Contact) :
    (∀ err, env.countThisWeek = .error err →
        OnInviteSentRecord email cleanQueries env contact = none ∧
          OnInviteSent email cleanQueries env ledger contact = ledger) ∧
      (∀ n, env.countThisWeek = .ok n → 200 ≤ n →
        OnInviteSentRecord email cleanQueries env contact = none ∧
          OnInviteSent email cleanQueries env ledger contact = ledger) ∧
      (∀ n, env.countThisWeek = .ok n → n < 200 →
        OnInviteSentRecord email cleanQueries env contact
            = some ⟨env.now, email, contact.Name, contact.Title, contact.Company,
                contact.Location, contact.LinkedIn, cleanQueries.headD []⟩ ∧
          (env.appendErr = none →
            OnInviteSent email cleanQueries env ledger contact
              = ledger ++ [⟨env.now, email, contact.Name, contact.Title, contact.Company,
                  contact.Location, contact.LinkedIn, cleanQueries.headD []⟩])) ∧
      ((OnInviteSentRecord email cleanQueries env contact).isSome ↔
        ∃ n, env.countThisWeek = .ok n ∧ n < 200) := by
  refine ⟨?_, ?_, ?_, ?_⟩
  · intro err h
    simp [OnInviteSent, OnInviteSentRecord, CanSendInvite, h]
  · intro n h hn
    have : ¬ n < 200 := by omega
    simp [OnInviteSent, OnInviteSentRecord, CanSendInvite, h, this]
  · intro n h hn
    constructor
    · simp [OnInviteSentRecord, CanSendInvite, h, hn]
    · intro ha
      simp [OnInviteSent, OnInviteSentRecord, CanSendInvite, AppendInvite, h, hn, ha]
  · cases hc : env.countThisWeek with
    | error err => simp [OnInviteSentRecord, CanSendInvite, hc]
    | ok n =>
      by_cases hn : n < 200
      · simp [OnInviteSentRecord, CanSendInvite, hc, hn]
      · simp [OnInviteSentRecord, CanSendInvite, hc, hn]

/-- C15, witness: five invites so far this week, then two hundred. -/
theorem OnInviteSent_quota_witness :
    OnInviteSent "me@x.example".toList ["a".toList] ⟨.ok 5, 1000, none⟩ []
        ⟨"Ann".toList, [], [], [], "u1".toList⟩
      = [⟨1000, "me@x.example".toList, "Ann".toList, [], [], [], "u1".toList, "a".toList⟩] ∧
    OnInviteSent "me@x.example".toList ["a".toList] ⟨.ok 200, 1000, none⟩ []
        ⟨"Ann".toList, [], [], [], "u1".toList⟩ = [] :=
  ⟨((OnInviteSent_quota "me@x.example".toList ["a".toList] ⟨.ok 5, 1000, none⟩ []
      ⟨"Ann".toList, [], [], [], "u1".toList⟩).2.2.1 5 rfl (by decide)).2 rfl,
    ((OnInviteSent_quota "me@x.example".toList ["a".toList] ⟨.ok 200, 1000, none⟩ []
      ⟨"Ann".toList, [], [], [], "u1".toList⟩).2.1 200 rfl (by decide)).2⟩

/-! ## The configuration built by the web entry point -/

/-- The value of a form field that is absent, unparseable or zero is replaced by
the default; no other value is. -/
theorem RunCrawlerConfig_defaults (postForm : Str → Str) (queriesBytes : Str) (cfg : RunConfig)
    (h : RunCrawlerConfig postForm queriesBytes = some cfg) :
    cfg.MaxCardsRead =
        (if (Atoi (postForm "max_cards".toList)).1 = 0 then 60
          else (Atoi (postForm "max_cards".toList)).1) ∧
      cfg.MaxConnectsPerPage =
        (if (Atoi (postForm "max_connects".toList)).1 = 0 then 3
          else (Atoi (postForm "max_connects".toList)).1) ∧
      cfg.MaxCardsRead ≠ 0 ∧ cfg.MaxConnectsPerPage ≠ 0 := by
  unfold RunCrawlerConfig at h
  simp only at h
  split at h
  · cases h
  · cases h
    refine ⟨rfl, rfl, ?_, ?_⟩
    · simp only
      split <;> simp_all
    · simp only
      split <;> simp_all

/-- C16, the code at the failing input: the form values `max_cards=-5` and
`max_connects=-1` reach the configuration unchanged. -/
theorem RunCrawlerConfig_negative :
    (RunCrawlerConfig
        (fun key =>
          if key = "max_cards".toList then "-5".toList
          else if key = "max_connects".toList then "-1".toList
          else [])
        "sales manager\n".toList).map (fun cfg => (cfg.MaxCardsRead, cfg.MaxConnectsPerPage))
      = some (-5, -1) := by
  rfl

/-! ## `encoding/csv`: reading back what was written -/

theorem csvRun_cons_of_ne (mode : CsvMode) (acc : CsvAcc) (c : Char) (rest : Str)
    (h : c ≠ '\r') :
    csvRun mode acc (c :: rest) =
      match csvStep mode acc c with
      | .error e => .error e
      | .ok (mode', acc') => csvRun mode' acc' rest := by
  rw [csvRun]
  simp [h]

theorem csvRun_cr_lf (mode : CsvMode) (acc : CsvAcc) (rest : Str)
    (h : rest.head? = some '\n') :
    csvRun mode acc ('\r' :: rest) = csvRun mode acc rest := by
  rw [csvRun]
  have hne : rest ≠ [] := by
    intro h0
    rw [h0] at h
    cases h
  simp [h, hne]

theorem csvRun_cr_other (mode : CsvMode) (acc : CsvAcc) (rest : Str)
    (h : rest.head? ≠ some '\n') (hne : rest ≠ []) :
    csvRun mode acc ('\r' :: rest) =
      match csvStep mode acc '\r' with
      | .error e => .error e
      | .ok (mode', acc') => csvRun mode' acc' rest := by
  rw [csvRun]
  simp [h, hne]

theorem endRecord_eq_csvFinish (acc : CsvAcc) :
    acc.endRecord = csvFinish acc.records (acc.fields ++ [acc.buf]) := by
  unfold CsvAcc.endRecord csvFinish
  cases acc.records <;> rfl

theorem csvQuoted_head (f rest : Str) :
    (csvQuoted f ++ '"' :: rest).head? = some '\n' ↔ f.head? = some '\n' := by
  cases f with
  | nil => simp [csvQuoted]
  | cons c f' =>
    unfold csvQuoted
    by_cases hc : c = '"'
    · subst hc
      simp
    · simp [hc]

theorem csvQuoted_append_ne_nil (f rest : Str) : csvQuoted f ++ '"' :: rest ≠ [] := by
  simp

/-- The inside of a quoted field is read back up to the closing quote, a
carriage return before a line feed being dropped. -/
theorem csvRun_quoted (f : Str) (acc : CsvAcc) (rest : Str) :
    csvRun .quoted acc (csvQuoted f ++ '"' :: rest)
      = csvRun .quoteSeen { acc with buf := acc.buf ++ crlfNorm f } rest := by
  induction f generalizing acc with
  | nil =>
    simp only [csvQuoted, List.nil_append, crlfNorm, List.append_nil]
    rw [csvRun_cons_of_ne _ _ _ _ (by decide)]
    simp [csvStep]
  | cons c f' ih =>
    by_cases hq : c = '"'
    · subst hq
      simp only [csvQuoted, if_true, List.cons_append]
      rw [csvRun_cons_of_ne _ _ _ _ (by decide)]
      simp only [csvStep, if_true]
      rw [csvRun_cons_of_ne _ _ _ _ (by decide)]
      simp only [csvStep, if_true]
      rw [ih]
      simp [crlfNorm]
    · by_cases hr : c = '\r'
      · subst hr
        simp only [csvQuoted, hq, if_false, List.cons_append]
        by_cases hn : f'.head? = some '\n'
        · rw [csvRun_cr_lf _ _ _ ((csvQuoted_head f' rest).2 hn), ih]
          simp [crlfNorm, hn]
        · rw [csvRun_cr_other _ _ _ (fun h => hn ((csvQuoted_head f' rest).1 h))
            (csvQuoted_append_ne_nil f' rest)]
          simp only [csvStep, hq, if_false]
          rw [ih]
          simp [crlfNorm, hn]
      · simp only [csvQuoted, hq, if_false, List.cons_append]
        rw [csvRun_cons_of_ne _ _ _ _ hr]
        simp only [csvStep, hq, if_false]
        rw [ih]
        simp [crlfNorm, hr]

theorem csvFieldNeedsQuotes_false (f : Str) (h : csvFieldNeedsQuotes f = false) :
    ∀ c ∈ f, c ≠ '\n' ∧ c ≠ '\r' ∧ c ≠ '"' ∧ c ≠ ',' := by
  intro c hc
  unfold csvFieldNeedsQuotes at h
  have hne : f ≠ [] := List.ne_nil_of_mem hc
  simp only [hne, if_false] at h
  split at h
  · cases h
  · split at h
    · cases h
    · rename_i hany
      simp only [List.any_eq_true, not_exists, not_and, Bool.or_eq_true, decide_eq_true_eq,
        not_or] at hany
      have := hany c hc
      tauto

theorem crlfNorm_of_no_cr (f : Str) (h : ∀ c ∈ f, c ≠ '\r') : crlfNorm f = f := by
  induction f with
  | nil => rfl
  | cons c f' ih =>
    have hc : c ≠ '\r' := h c (List.mem_cons_self _ _)
    simp only [crlfNorm, hc, false_and, if_false]
    rw [ih (fun x hx => h x (List.mem_cons_of_mem _ hx))]

theorem csvRun_unquoted_plain (f : Str) (hf : ∀ c ∈ f, c ≠ '\n' ∧ c ≠ '\r' ∧ c ≠ '"' ∧ c ≠ ',')
    (acc : CsvAcc) (rest : Str) :
    csvRun .unquoted acc (f ++ rest) = csvRun .unquoted { acc with buf := acc.buf ++ f } rest := by
  induction f generalizing acc with
  | nil => simp
  | cons c f' ih =>
    obtain ⟨h1, h2, h3, h4⟩ := hf c (List.mem_cons_self _ _)
    rw [List.cons_append, csvRun_cons_of_ne _ _ _ _ h2]
    simp only [csvStep, h1, h3, h4, if_false]
    rw [ih (fun x hx => hf x (List.mem_cons_of_mem _ hx))]
    simp

/-- One written field followed by a comma or a line feed is read back as that
field, a carriage return before a line feed being dropped. -/
theorem csvRun_field (m : CsvMode) (hm : m = .recordStart ∨ m = .fieldStart) (acc : CsvAcc)
    (hbuf : acc.buf = []) (f : Str) (d : Char) (hd : d = ',' ∨ d = '\n')
    (hblank : ¬ (m = .recordStart ∧ f = [] ∧ d = '\n')) (rest : Str) :
    csvRun m acc (csvWriteField f ++ d :: rest) =
      match csvStep .quoteSeen { acc with buf := crlfNorm f } d with
      | .error e => .error e
      | .ok (m', a') => csvRun m' a' rest := by
  have hdr : d ≠ '\r' := by rcases hd with rfl | rfl <;> decide
  have hdq : d ≠ '"' := by rcases hd with rfl | rfl <;> decide
  unfold csvWriteField
  by_cases hq : csvFieldNeedsQuotes f = true
  · simp only [hq, if_true, List.cons_append, List.append_assoc]
    rw [csvRun_cons_of_ne _ _ _ _ (by decide)]
    have hstep : csvStep m acc '"' = .ok (.quoted, acc) := by
      rcases hm with rfl | rfl <;> simp [csvStep]
    simp only [hstep, List.singleton_append]
    rw [csvRun_quoted, List.nil_append, csvRun_cons_of_ne _ _ _ _ hdr, hbuf, List.nil_append]
  · have hq' : csvFieldNeedsQuotes f = false := by simpa using hq
    have hplain := csvFieldNeedsQuotes_false f hq'
    simp only [hq', Bool.false_eq_true, if_false]
    rw [crlfNorm_of_no_cr f (fun c hc => (hplain c hc).2.1)]
    cases f with
    | nil =>
      rw [List.nil_append, csvRun_cons_of_ne _ _ _ _ hdr]
      have hacc : ({ acc with buf := [] } : CsvAcc) = acc := by
        cases acc
        simp_all
      rw [hacc]
      rcases hm with rfl | rfl
      · rcases hd with rfl | rfl
        · simp [csvStep]
        · exact absurd ⟨rfl, rfl, rfl⟩ hblank
      · rcases hd with rfl | rfl <;> simp [csvStep]
    | cons c f' =>
      obtain ⟨h1, h2, h3, h4⟩ := hplain c (List.mem_cons_self _ _)
      rw [List.cons_append, csvRun_cons_of_ne _ _ _ _ h2]
      have hstep : csvStep m acc c = .ok (.unquoted, { acc with buf := acc.buf ++ [c] }) := by
        rcases hm with rfl | rfl <;> simp [csvStep, h1, h3, h4]
      simp only [hstep]
      rw [csvRun_unquoted_plain f' (fun x hx => hplain x (List.mem_cons_of_mem _ hx)),
        csvRun_cons_of_ne _ _ _ _ hdr, hbuf]
      rcases hd with rfl | rfl <;> simp [csvStep, CsvAcc.endField, CsvAcc.endRecord]

theorem csvWriteFields_succ (fs : List Str) (n : Nat) :
    csvWriteFields fs (n + 1) = fs.flatMap (fun g => ',' :: csvWriteField g) := by
  induction fs generalizing n with
  | nil => rfl
  | cons f fs ih =>
    simp only [csvWriteFields, List.flatMap_cons, ih]
    simp

theorem csvWriteRecord_cons (f : Str) (fs : List Str) :
    csvWriteRecord (f :: fs)
      = csvWriteField f ++ (fs.flatMap (fun g => ',' :: csvWriteField g) ++ ['\n']) := by
  unfold csvWriteRecord
  simp only [csvWriteFields, csvWriteFields_succ]
  simp

/-- One written record is read back as one record. -/
theorem csvRun_record (fs : List Str) (f : Str) (m : CsvMode)
    (hm : m = .recordStart ∨ m = .fieldStart) (acc : CsvAcc) (hbuf : acc.buf = [])
    (hblank : m = .recordStart → ¬ (f = [] ∧ fs = [])) (rest : Str) :
    csvRun m acc (csvWriteField f ++ (fs.flatMap (fun g => ',' :: csvWriteField g) ++ '\n' :: rest))
      = csvAfterRecord (csvFinish acc.records (acc.fields ++ (f :: fs).map crlfNorm)) rest := by
  induction fs generalizing f m acc with
  | nil =>
    simp only [List.flatMap_nil, List.nil_append, List.map_cons, List.map_nil]
    rw [csvRun_field m hm acc hbuf f '\n' (Or.inr rfl)
      (fun h => hblank h.1 ⟨h.2.1, rfl⟩)]
    simp only [csvStep]
    rw [endRecord_eq_csvFinish]
    simp only [show ('\n' : Char) ≠ '"' by decide, show ('\n' : Char) ≠ ',' by decide, if_false,
      if_true]
    unfold csvAfterRecord
    cases csvFinish acc.records (acc.fields ++ [crlfNorm f]) <;> rfl
  | cons g gs ih =>
    simp only [List.flatMap_cons, List.cons_append, List.append_assoc]
    rw [csvRun_field m hm acc hbuf f ',' (Or.inl rfl) (fun h => by simp at h)]
    simp only [csvStep, show (',' : Char) ≠ '"' by decide, if_false, if_true]
    rw [ih g .fieldStart (Or.inr rfl) _ rfl (fun h => by cases h)]
    simp [CsvAcc.endField]

/-- A sequence of written records of the width of the first record is read back
record by record. -/
theorem csvRun_rows (rows : List (List Str)) (recs : List (List Str)) (first : List Str)
    (hrecs : recs.head? = some first) (hwidth : 2 ≤ first.length)
    (hrows : ∀ r ∈ rows, r.length = first.length) :
    csvRun .recordStart ⟨recs, [], []⟩ (rows.map csvWriteRecord).flatten
      = .ok (recs ++ rows.map (fun r => r.map crlfNorm)) := by
  induction rows generalizing recs with
  | nil => simp [csvRun, csvEOF]
  | cons r rows ih =>
    have hr : r.length = first.length := hrows r (List.mem_cons_self _ _)
    cases r with
    | nil =>
      simp only [List.length_nil] at hr
      omega
    | cons f fs =>
      simp only [List.map_cons, List.flatten_cons, csvWriteRecord_cons, List.append_assoc,
        List.singleton_append]
      rw [csvRun_record fs f .recordStart (Or.inl rfl) ⟨recs, [], []⟩ rfl]
      · cases recs with
        | nil => cases hrecs
        | cons r0 recs' =>
          simp only [List.head?_cons, Option.some.injEq] at hrecs
          subst hrecs
          have hlen : ((f :: fs).map crlfNorm).length = r0.length := by
            simpa using hr
          simp only [csvFinish, List.nil_append, hlen, if_true, csvAfterRecord]
          rw [ih (r0 :: recs' ++ [(f :: fs).map crlfNorm]) rfl
            (fun r hr => hrows r (List.mem_cons_of_mem _ hr))]
          simp
      · intro _ h
        rw [h.2] at hr
        simp only [List.length_singleton] at hr
        omega

theorem foldl_append_flatten (w : Contact → Str) (cs : List Contact) (init : Str) :
    cs.foldl (fun out c => out ++ w c) init = init ++ (cs.map w).flatten := by
  induction cs generalizing init with
  | nil => simp
  | cons c cs ih => simp [ih]

/-- The file written by `SaveCSV`: the header record, then the record of every
contact in order. -/
theorem SaveCSV_content (cs : List Contact) :
    (SaveCSV none cs).2
      = some (csvWriteRecord csvHeader ++ (cs.map (fun c => csvWriteRecord (contactRow c))).flatten)
    := by
  unfold SaveCSV
  simp only [foldl_append_flatten]

/-- What Go `csv.Reader` reads from the file written by `SaveCSV`. -/
theorem csvReadAll_SaveCSV (cs : List Contact) (out : Str) (h : (SaveCSV none cs).2 = some out) :
    csvReadAll out = .ok (csvHeader :: cs.map (fun c => (contactRow c).map crlfNorm)) := by
  rw [SaveCSV_content] at h
  cases h
  unfold csvReadAll
  have hh : csvWriteRecord csvHeader
      = csvWriteField "Nome".toList ++
        (["Cargo".toList, "Empresa".toList, "Localização".toList, "LinkedIn".toList].flatMap
          (fun g => ',' :: csvWriteField g) ++ ['\n']) := csvWriteRecord_cons _ _
  rw [hh, List.append_assoc, List.append_assoc, List.singleton_append,
    csvRun_record _ _ .recordStart (Or.inl rfl) ⟨[], [], []⟩ rfl (fun _ h => by cases h.2)]
  have hn : ("Nome".toList :: ["Cargo".toList, "Empresa".toList, "Localização".toList,
      "LinkedIn".toList]).map crlfNorm = csvHeader := by decide
  simp only [List.nil_append, hn, csvFinish, csvAfterRecord]
  have := csvRun_rows (cs.map contactRow) [csvHeader] csvHeader rfl (by decide)
    (fun r hr => by
      obtain ⟨c, _, rfl⟩ := List.mem_map.1 hr
      rfl)
  simp only [List.map_map] at this
  rw [show (fun c => csvWriteRecord (contactRow c)) = csvWriteRecord ∘ contactRow from rfl, this]
  rfl

/-! ## `SaveCSV` -/

/-- C13, counterexample: for the empty list the file is the line
`Nome,Cargo,Empresa,Localização,LinkedIn`, not `Name,Title,Company,Location,ProfileURL`. -/
theorem SaveCSV_header_text :
    (SaveCSV none []).2 = some "Nome,Cargo,Empresa,Localização,LinkedIn\n".toList ∧
      (SaveCSV none []).2 ≠ some "Name,Title,Company,Location,ProfileURL\n".toList := by
  constructor <;> decide

/-- C13, amended: when the file can be created, `SaveCSV` writes the fixed header
record `Nome,Cargo,Empresa,Localização,LinkedIn`, then exactly one record per
contact in input order; Go `csv.Reader` reads the header and one record per
contact from the file; for the empty list the file is the header line only. -/
theorem SaveCSV_header_then_rows (cs : List Contact) :
    (SaveCSV none cs).1 = none ∧
      (SaveCSV none cs).2
        = some ("Nome,Cargo,Empresa,Localização,LinkedIn\n".toList ++
            (cs.map (fun c =>
              csvWriteRecord [c.Name, c.Title, c.Company, c.Location, c.LinkedIn])).flatten) ∧
      (∀ out, (SaveCSV none cs).2 = some out →
        ∃ rows, csvReadAll out = .ok (csvHeader :: rows) ∧ rows.length = cs.length) ∧
      (SaveCSV none []).2 = some "Nome,Cargo,Empresa,Localização,LinkedIn\n".toList := by
  refine ⟨rfl, ?_, ?_, by decide⟩
  · rw [SaveCSV_content]
    have : csvWriteRecord csvHeader = "Nome,Cargo,Empresa,Localização,LinkedIn\n".toList := by
      decide
    rw [this]
    rfl
  · intro out h
    exact ⟨_, csvReadAll_SaveCSV cs out h, by simp⟩

/-- C13, witness: a list of one contact. -/
theorem SaveCSV_header_then_rows_witness :
    ∃ rows, csvReadAll "Nome,Cargo,Empresa,Localização,LinkedIn\nAnn,,,,u1\n".toList
        = .ok (csvHeader :: rows) ∧ rows.length = 1 :=
  (SaveCSV_header_then_rows [⟨"Ann".toList, [], [], [], "u1".toList⟩]).2.2.1
    "Nome,Cargo,Empresa,Localização,LinkedIn\nAnn,,,,u1\n".toList (by decide)

/-- C14, counterexample: a name that holds a carriage return followed by a line
feed is read back without the carriage return. -/
theorem SaveCSV_crlf_not_preserved :
    (SaveCSV none [⟨"a\r\nb".toList, [], [], [], []⟩]).2
        = some "Nome,Cargo,Empresa,Localização,LinkedIn\n\"a\r\nb\",,,,\n".toList ∧
      csvReadAll "Nome,Cargo,Empresa,Localização,LinkedIn\n\"a\r\nb\",,,,\n".toList
        = .ok [csvHeader, ["a\nb".toList, [], [], [], []]] := by
  constructor
  · decide
  · rfl

/-- C14, amended: parsing the file written by `SaveCSV` with Go `csv.Reader` and
dropping the header record yields, for every contact in order, its five fields
in which every carriage return that stands before a line feed is dropped; hence
the same tuples for every list whose fields hold no carriage return followed by a
line feed, whatever commas, quotes and line breaks they hold. -/
theorem SaveCSV_round_trip (cs : List Contact) (out : Str) (h : (SaveCSV none cs).2 = some out) :
    (csvReadAll out).map (fun records => records.drop 1)
        = .ok (cs.map (fun c =>
            [crlfNorm c.Name, crlfNorm c.Title, crlfNorm c.Company, crlfNorm c.Location,
              crlfNorm c.LinkedIn])) ∧
      ((∀ c ∈ cs, ∀ f ∈ [c.Name, c.Title, c.Company, c.Location, c.LinkedIn], crlfNorm f = f) →
        (csvReadAll out).map (fun records => records.drop 1)
          = .ok (cs.map (fun c => [c.Name, c.Title, c.Company, c.Location, c.LinkedIn]))) := by
  have hmain : (csvReadAll out).map (fun records => records.drop 1)
      = .ok (cs.map (fun c =>
          [crlfNorm c.Name, crlfNorm c.Title, crlfNorm c.Company, crlfNorm c.Location,
            crlfNorm c.LinkedIn])) := by
    rw [csvReadAll_SaveCSV cs out h]
    rfl
  refine ⟨hmain, ?_⟩
  intro hf
  rw [hmain]
  congr 1
  apply List.map_congr_left
  intro c hc
  have := hf c hc
  simp only [List.mem_cons, List.mem_singleton, List.not_mem_nil, or_false, forall_eq_or_imp,
    forall_eq] at this
  obtain ⟨h1, h2, h3, h4, h5⟩ := this
  rw [h1, h2, h3, h4, h5]

/-- C14, witness: fields with a comma, a quote, a line feed and a lone carriage
return. -/
theorem SaveCSV_round_trip_witness :
    (csvReadAll
        "Nome,Cargo,Empresa,Localização,LinkedIn\n\"a,b\",\"c\"\"d\",\"e\nf\",\"g\rh\",\n".toList).map
        (fun records => records.drop 1)
      = .ok [["a,b".toList, "c\"d".toList, "e\nf".toList, "g\rh".toList, []]] :=
  (SaveCSV_round_trip [⟨"a,b".toList, "c\"d".toList, "e\nf".toList, "g\rh".toList, []⟩]
    "Nome,Cargo,Empresa,Localização,LinkedIn\n\"a,b\",\"c\"\"d\",\"e\nf\",\"g\rh\",\n".toList
    (by decide)).2 (by decide)

/-! ## The extraction scripts: determinism and the name -/

theorem scraperExtractCard_mark (lowerJS : Str → Str) (i : Nat) (card : Card) :
    scraperExtractCard lowerJS (scraperMark i card) = scraperExtractCard lowerJS card := rfl

theorem scraperMark_mark (i : Nat) (card : Card) :
    scraperMark i (scraperMark i card) = scraperMark i card := rfl

theorem scraperScriptLoop_acc (lowerJS : Str → Str) (cards : List Card) (i : Nat)
    (st : List RawContact × List Card) :
    scraperScriptLoop lowerJS cards i st
      = (st.1 ++ (scraperScriptLoop lowerJS cards i ([], [])).1,
          st.2 ++ (scraperScriptLoop lowerJS cards i ([], [])).2) := by
  induction cards generalizing i st with
  | nil => simp [scraperScriptLoop]
  | cons card rest ih =>
    unfold scraperScriptLoop
    split
    · simp
    · simp only
      rw [ih (i + 1) (_, st.2 ++ [scraperMark i card]),
        ih (i + 1) (_, ([] : List Card) ++ [scraperMark i card])]
      cases scraperExtractCard lowerJS card <;> simp

theorem scraperScriptLoop_again (lowerJS : Str → Str) (cards : List Card) (i : Nat) :
    scraperScriptLoop lowerJS (scraperScriptLoop lowerJS cards i ([], [])).2 i ([], [])
      = scraperScriptLoop lowerJS cards i ([], []) := by
  induction cards generalizing i with
  | nil => rfl
  | cons card rest ih =>
    by_cases hi : i ≥ 60
    · simp [scraperScriptLoop, hi]
    · have step : ∀ c : Card, scraperExtractCard lowerJS c = scraperExtractCard lowerJS card →
          scraperMark i c = scraperMark i card → ∀ tail : List Card,
          scraperScriptLoop lowerJS (c :: tail) i ([], [])
            = ((match scraperExtractCard lowerJS card with
                | none => []
                | some contact => [contact]) ++ (scraperScriptLoop lowerJS tail (i + 1) ([], [])).1,
              scraperMark i card :: (scraperScriptLoop lowerJS tail (i + 1) ([], [])).2) := by
        intro c hc hmark tail
        rw [scraperScriptLoop]
        simp only [hi, if_false, hc, hmark]
        rw [scraperScriptLoop_acc]
        cases scraperExtractCard lowerJS card <;> simp
      rw [step card rfl rfl rest]
      simp only
      rw [step (scraperMark i card) (scraperExtractCard_mark lowerJS i card)
        (scraperMark_mark i card), ih (i + 1)]

/-- C17: the contact extracted from a card is a function of the profile link,
of the descendants selected by `span, div, p`, and of the texts of the card: two
cards that agree on these yield the same result in both scripts; and a second run
of the script of `scraper.go` on the page left by the first run, which has set
`data-sel` on the cards, returns the same contacts and leaves the same page. -/
theorem extraction_deterministic (lowerJS : Str → Str) (card card' : Card) (page : List Card)
    (hlink : card.link = card'.link) (helems : card.elems = card'.elems)
    (hinner : card.innerText = card'.innerText) (htext : card.textContent = card'.textContent) :
    engineExtractCard lowerJS card = engineExtractCard lowerJS card' ∧
      scraperExtractCard lowerJS card = scraperExtractCard lowerJS card' ∧
      scraperScript lowerJS (scraperScript lowerJS page).2 = scraperScript lowerJS page := by
  refine ⟨?_, ?_, scraperScriptLoop_again lowerJS page 0⟩
  · unfold engineExtractCard
    rw [hlink, helems, hinner]
  · unfold scraperExtractCard
    rw [hlink, helems, htext]

/-- C17, witness: a card before and after the script of `scraper.go` has marked
it. -/
theorem extraction_deterministic_witness :
    engineExtractCard id ⟨some ⟨"Ann".toList, "u1".toList⟩, [], [], [], none⟩
        = engineExtractCard id
            ⟨some ⟨"Ann".toList, "u1".toList⟩, [], [], [], some "card-0".toList⟩ ∧
      scraperExtractCard id ⟨some ⟨"Ann".toList, "u1".toList⟩, [], [], [], none⟩
        = scraperExtractCard id
            ⟨some ⟨"Ann".toList, "u1".toList⟩, [], [], [], some "card-0".toList⟩ :=
  ⟨(extraction_deterministic id ⟨some ⟨"Ann".toList, "u1".toList⟩, [], [], [], none⟩
      ⟨some ⟨"Ann".toList, "u1".toList⟩, [], [], [], some "card-0".toList⟩ [] rfl rfl rfl rfl).1,
    (extraction_deterministic id ⟨some ⟨"Ann".toList, "u1".toList⟩, [], [], [], none⟩
      ⟨some ⟨"Ann".toList, "u1".toList⟩, [], [], [], some "card-0".toList⟩ [] rfl rfl rfl rfl).2.1⟩

/-- C18, the code at the failing input: the text `Ver perfil de John Doe` of a
profile link is extracted as it is by both scripts, and the text of two lines
`John`, `Doe` keeps its line break in both; the phrases are removed, and the
text is cut, only where a backslash stands in the text. -/
theorem name_keeps_phrase_and_line_break :
    engineName ⟨"Ver perfil de John Doe".toList, []⟩ = "Ver perfil de John Doe".toList ∧
      scraperName ⟨"Ver perfil de John Doe".toList, []⟩ = "Ver perfil de John Doe".toList ∧
      engineName ⟨"John\nDoe".toList, []⟩ = "John\nDoe".toList ∧
      scraperName ⟨"John\nDoe".toList, []⟩ = "John\nDoe".toList ∧
      scraperName ⟨"Ver perfil de\\ John\\nDoe".toList, []⟩ = "John".toList := by
  refine ⟨?_, ?_, ?_, ?_, ?_⟩ <;> decide

/-! ## The extraction scripts: title and company -/

theorem IndexFrom_singleton_of_not_mem (x : Char) (s : Str) (n : Nat) (h : x ∉ s) :
    IndexFrom [x] s n = -1 := by
  induction s generalizing n with
  | nil => simp [IndexFrom, List.isPrefixOf]
  | cons c cs ih =>
    have hc : x ≠ c := fun e => h (e ▸ List.mem_cons_self _ _)
    have hcs : x ∉ cs := fun e => h (List.mem_cons_of_mem _ e)
    unfold IndexFrom
    simp [List.isPrefixOf, hc, ih (n + 1) hcs]

theorem jsIncludes_singleton (s : Str) (x : Char) : jsIncludes s [x] = true ↔ x ∈ s := by
  unfold jsIncludes Index
  constructor
  · intro h
    by_contra hx
    simp [IndexFrom_singleton_of_not_mem x s 0 hx] at h
  · intro hx
    simp only [decide_eq_true_eq]
    intro h
    exact (IndexFrom_singleton_not_mem x s 0).1 (by omega) hx

theorem splitOnP_of_exists (p : Char → Bool) (t : Str) (h : ∃ c ∈ t, p c = true) :
    t.splitOnP p
      = t.takeWhile (fun c => !p c) :: ((t.dropWhile (fun c => !p c)).drop 1).splitOnP p := by
  have hd : t.dropWhile (fun c => !p c) ≠ [] := by
    intro hnil
    rw [List.dropWhile_eq_nil_iff] at hnil
    obtain ⟨c, hc, hp⟩ := h
    have := hnil c hc
    simp [hp] at this
  obtain ⟨sep, post, hsp⟩ := List.exists_cons_of_ne_nil hd
  have hsep : p sep = true := by
    have := List.head_dropWhile_not (fun c => !p c) t hd
    simp only [hsp, List.head_cons] at this
    simpa using this
  have ht : t = t.takeWhile (fun c => !p c) ++ sep :: post := by
    rw [← hsp, List.takeWhile_append_dropWhile]
  rw [hsp, List.drop_one, List.tail_cons]
  conv_lhs => rw [ht]
  apply List.splitOnP_first
  · intro x hx
    have := List.mem_takeWhile_imp hx
    simpa using this
  · exact hsep

theorem exists_sep_of_includes (t : Str)
    (hsep : jsIncludes t "|".toList = true ∨ jsIncludes t "-".toList = true) :
    ∃ c ∈ t, (decide (c = '|') || decide (c = '-')) = true := by
  rcases hsep with h | h
  · exact ⟨'|', (jsIncludes_singleton t '|').1 h, by decide⟩
  · exact ⟨'-', (jsIncludes_singleton t '-').1 h, by decide⟩

theorem engineTitleCompany_sep (lowerJS : Str → Str) (t : Str) (rest : List Str)
    (hsep : jsIncludes t "|".toList = true ∨ jsIncludes t "-".toList = true) :
    engineTitleCompany lowerJS (t :: rest)
      = (jsTrim (t.takeWhile (fun c => !(decide (c = '|') || decide (c = '-')))),
          jsTrim (" ".toList.intercalate
            (((t.dropWhile (fun c => !(decide (c = '|') || decide (c = '-')))).drop 1).splitOnP
              (fun c => decide (c = '|') || decide (c = '-'))))) := by
  unfold engineTitleCompany
  simp only [List.headD_cons, hsep, if_true]
  rw [splitOnP_of_exists _ t (exists_sep_of_includes t hsep)]
  simp

theorem jsLength_pos (p : Str) (h : jsLength p > 0) : p ≠ [] := by
  intro hp
  subst hp
  simp [jsLength] at h

theorem intercalate_ne_nil (sep p : Str) (ps : List Str) (hp : p ≠ []) :
    sep.intercalate (p :: ps) ≠ [] := by
  cases ps with
  | nil => simpa [List.intercalate, List.intersperse] using hp
  | cons q qs => simp [List.intercalate, List.intersperse, hp]

/-- Once the title and the company are both set, the rest of the chain of the
script of `scraper.go` leaves them as they are. -/
theorem scraperExtractCard_of_tc (lowerJS : Str → Str) (card : Card) (link : Link)
    (title company : Str) (hlink : card.link = some link)
    (htc : scraperTitleCompany lowerJS (scraperName link) card.elems
      (scraperRelevantTexts (scraperName link) card.elems) = (title, company))
    (ht : title ≠ []) (hc : company ≠ []) :
    ∃ c, scraperExtractCard lowerJS card = some c ∧ c.title = some title ∧
      c.company = some company := by
  unfold scraperExtractCard
  rw [hlink]
  simp only [htc, ht, hc, if_false, false_and]
  exact ⟨_, rfl, rfl, rfl⟩

theorem scraperTitleCompany_sep (lowerJS : Str → Str) (name : Str) (elems : List Elem)
    (t : Str) (rest : List Str)
    (hsep : jsIncludes t "|".toList = true ∨ jsIncludes t "-".toList = true)
    (hparts : 2 ≤ (((t.splitOnP (fun c => decide (c = '|') || decide (c = '-'))).map
      jsTrim).filter (fun p => decide (jsLength p > 0))).length) :
    scraperTitleCompany lowerJS name elems (t :: rest)
        = ((((t.splitOnP (fun c => decide (c = '|') || decide (c = '-'))).map jsTrim).filter
            (fun p => decide (jsLength p > 0))).headD [],
          " - ".toList.intercalate
            ((((t.splitOnP (fun c => decide (c = '|') || decide (c = '-'))).map jsTrim).filter
              (fun p => decide (jsLength p > 0))).drop 1)) ∧
      (((t.splitOnP (fun c => decide (c = '|') || decide (c = '-'))).map jsTrim).filter
        (fun p => decide (jsLength p > 0))).headD [] ≠ [] ∧
      " - ".toList.intercalate
        ((((t.splitOnP (fun c => decide (c = '|') || decide (c = '-'))).map jsTrim).filter
          (fun p => decide (jsLength p > 0))).drop 1) ≠ [] := by
  generalize hP : ((t.splitOnP (fun c => decide (c = '|') || decide (c = '-'))).map jsTrim).filter
    (fun p => decide (jsLength p > 0)) = parts at hparts ⊢
  have hne : ∀ p ∈ parts, p ≠ [] := by
    intro p hp
    rw [← hP] at hp
    have := (List.mem_filter.1 hp).2
    exact jsLength_pos p (by simpa using this)
  match parts, hparts, hne with
  | p1 :: p2 :: ps, _, hne =>
    have h1 : p1 ≠ [] := hne p1 (by simp)
    have h2 : " - ".toList.intercalate (p2 :: ps) ≠ [] :=
      intercalate_ne_nil _ _ _ (hne p2 (by simp))
    have hA : scraperSplitSep t [] = (p1, " - ".toList.intercalate (p2 :: ps)) := by
      unfold scraperSplitSep
      simp only [hsep, if_true, hP]
      simp
    simp only [List.headD_cons, List.drop_one, List.tail_cons]
    generalize " - ".toList.intercalate (p2 :: ps) = comp at h2 hA ⊢
    refine ⟨?_, h1, h2⟩
    have hB : scraperSplitWords p1 comp = (p1, comp) := by
      unfold scraperSplitWords
      rw [if_neg (fun h => h2 h.1)]
    unfold scraperTitleCompany
    simp only [List.length_cons, List.headD_cons, hA, h2, if_false, gt_iff_lt,
      Nat.zero_lt_succ, if_true, hB, false_and]

/-- C19, counterexample: in the script of `scraper.go` the first candidate text
`- Engineer - Acme`, whose segment left of the first separator is empty, gives the
title `Engineer`; and the text `Engineer -`, which has one segment that is not
empty, is not split and stays the title. -/
theorem scraper_split_skips_empty_segments :
    (scraperExtractCard id
        ⟨some ⟨"Ann".toList, "u1".toList⟩, [⟨.div, [], [], "- Engineer - Acme".toList⟩], [], [],
          none⟩).map (fun c => (c.title, c.company))
        = some (some "Engineer".toList, some "Acme".toList) ∧
      jsTrim ("- Engineer - Acme".toList.takeWhile
        (fun c => !(decide (c = '|') || decide (c = '-')))) = [] ∧
      (scraperExtractCard id
        ⟨some ⟨"Ann".toList, "u1".toList⟩, [⟨.div, [], [], "Engineer -".toList⟩], [], [],
          none⟩).map (fun c => (c.title, c.company))
        = some (some "Engineer -".toList, some []) := by
  refine ⟨?_, ?_, ?_⟩ <;> decide

/-- C19, amended: for a card whose first candidate text `t` holds a pipe or a
hyphen, the script of `engine.go` sets the title to the trimmed segment left of
the first separator and the company to the remaining segments joined with a space
and trimmed; the script of `scraper.go` trims the segments and drops the empty
ones, and when at least two are left it sets the title to the first of them and
the company to the others joined with ` - `. -/
theorem title_company_split (lowerJS : Str → Str) (card : Card) (link : Link) (t : Str)
    (rest : List Str) (hlink : card.link = some link)
    (hsep : jsIncludes t "|".toList = true ∨ jsIncludes t "-".toList = true) :
    (engineRelevantTexts (engineName link) card.elems = t :: rest →
      ∃ p, engineExtractCard lowerJS card = some p ∧
        p.title = jsTrim (t.takeWhile (fun c => !(decide (c = '|') || decide (c = '-')))) ∧
        p.company = jsTrim (" ".toList.intercalate
          (((t.dropWhile (fun c => !(decide (c = '|') || decide (c = '-')))).drop 1).splitOnP
            (fun c => decide (c = '|') || decide (c = '-'))))) ∧
      (scraperRelevantTexts (scraperName link) card.elems = t :: rest →
        2 ≤ (((t.splitOnP (fun c => decide (c = '|') || decide (c = '-'))).map jsTrim).filter
          (fun p => decide (jsLength p > 0))).length →
        ∃ c, scraperExtractCard lowerJS card = some c ∧
          c.title = some ((((t.splitOnP (fun c => decide (c = '|') || decide (c = '-'))).map
            jsTrim).filter (fun p => decide (jsLength p > 0))).headD []) ∧
          c.company = some (" - ".toList.intercalate
            ((((t.splitOnP (fun c => decide (c = '|') || decide (c = '-'))).map jsTrim).filter
              (fun p => decide (jsLength p > 0))).drop 1))) := by
  constructor
  · intro hrel
    unfold engineExtractCard
    rw [hlink]
    simp only [hrel, engineTitleCompany_sep lowerJS t rest hsep]
    exact ⟨_, rfl, rfl, rfl⟩
  · intro hrel hparts
    obtain ⟨h1, h2, h3⟩ := scraperTitleCompany_sep lowerJS (scraperName link) card.elems t rest
      hsep hparts
    exact scraperExtractCard_of_tc lowerJS card link _ _ hlink (by rw [hrel]; exact h1) h2 h3

/-- C19, witness: the candidate text `Engineer | Acme - Brasil`. -/
theorem title_company_split_witness :
    (∃ p, engineExtractCard id
        ⟨some ⟨"Ann".toList, "u1".toList⟩,
          [⟨.div, [], "Engineer | Acme - Brasil".toList, "Engineer | Acme - Brasil".toList⟩],
          [], [], none⟩ = some p ∧
        p.title = jsTrim ("Engineer | Acme - Brasil".toList.takeWhile
          (fun c => !(decide (c = '|') || decide (c = '-')))) ∧
        p.company = jsTrim (" ".toList.intercalate
          ((("Engineer | Acme - Brasil".toList.dropWhile
            (fun c => !(decide (c = '|') || decide (c = '-')))).drop 1).splitOnP
            (fun c => decide (c = '|') || decide (c = '-'))))) ∧
      (∃ c, scraperExtractCard id
        ⟨some ⟨"Ann".toList, "u1".toList⟩,
          [⟨.div, [], "Engineer | Acme - Brasil".toList, "Engineer | Acme - Brasil".toList⟩],
          [], [], none⟩ = some c ∧
        c.title = some (((("Engineer | Acme - Brasil".toList.splitOnP
          (fun c => decide (c = '|') || decide (c = '-'))).map jsTrim).filter
            (fun p => decide (jsLength p > 0))).headD []) ∧
        c.company = some (" - ".toList.intercalate
          (((("Engineer | Acme - Brasil".toList.splitOnP
            (fun c => decide (c = '|') || decide (c = '-'))).map jsTrim).filter
              (fun p => decide (jsLength p > 0))).drop 1))) :=
  ⟨(title_company_split id
      ⟨some ⟨"Ann".toList, "u1".toList⟩,
        [⟨.div, [], "Engineer | Acme - Brasil".toList, "Engineer | Acme - Brasil".toList⟩],
        [], [], none⟩
      ⟨"Ann".toList, "u1".toList⟩ "Engineer | Acme - Brasil".toList [] rfl
      (Or.inl (by decide))).1 (by decide),
    (title_company_split id
      ⟨some ⟨"Ann".toList, "u1".toList⟩,
        [⟨.div, [], "Engineer | Acme - Brasil".toList, "Engineer | Acme - Brasil".toList⟩],
        [], [], none⟩
      ⟨"Ann".toList, "u1".toList⟩ "Engineer | Acme - Brasil".toList [] rfl
      (Or.inl (by decide))).2 (by decide) (by decide)⟩

theorem intercalate_cons_cons (sep a b : Str) (l : List Str) :
    sep.intercalate (a :: b :: l) = a ++ sep ++ sep.intercalate (b :: l) := by
  simp [List.intercalate, List.intersperse]

theorem intercalate_append (sep : Str) (A B : List Str) (hA : A ≠ []) (hB : B ≠ []) :
    sep.intercalate (A ++ B) = sep.intercalate A ++ sep ++ sep.intercalate B := by
  induction A with
  | nil => exact absurd rfl hA
  | cons a A' ih =>
    cases A' with
    | nil =>
      obtain ⟨b, B', rfl⟩ := List.exists_cons_of_ne_nil hB
      rw [List.singleton_append, intercalate_cons_cons]
      simp [List.intercalate, List.intersperse]
    | cons a' A'' =>
      rw [List.cons_append, List.cons_append, intercalate_cons_cons, ← List.cons_append,
        ih (by simp), intercalate_cons_cons]
      simp

/-- Cutting the words of a text after the first `k` of them and joining both
halves with spaces gives two texts that, put together with a space, are the text. -/
theorem words_cut (t : Str) (k : Nat) (hk : 0 < k) (hn : k < (t.splitOn ' ').length) :
    " ".toList.intercalate ((t.splitOn ' ').take k) ++ " ".toList ++
      " ".toList.intercalate ((t.splitOn ' ').drop k) = t := by
  have h1 : (t.splitOn ' ').take k ≠ [] := by
    intro h
    have := congrArg List.length h
    simp only [List.length_take, List.length_nil] at this
    omega
  have h2 : (t.splitOn ' ').drop k ≠ [] := by
    intro h
    have := congrArg List.length h
    simp only [List.length_drop, List.length_nil] at this
    omega
  rw [← intercalate_append _ _ _ h1 h2, List.take_append_drop]
  exact List.intercalate_splitOn t ' '

theorem jsTrim_head (s : Str) (c : Char) (r : Str) (h : jsTrim s = c :: r) :
    jsIsSpace c = false := by
  unfold jsTrim at h
  have hp := List.rdropWhile_prefix jsIsSpace (s.dropWhile jsIsSpace)
  rw [h] at hp
  obtain ⟨u, hu⟩ := hp
  have hne : s.dropWhile jsIsSpace ≠ [] := by
    rw [← hu]
    simp
  have := List.head_dropWhile_not jsIsSpace s hne
  simp only [← hu, List.cons_append, List.head_cons] at this
  exact this

theorem jsTrim_last (s : Str) (c : Char) (r : Str) (h : jsTrim s = r ++ [c]) :
    jsIsSpace c = false := by
  have hne : jsTrim s ≠ [] := by
    rw [h]
    simp
  have hl : (jsTrim s).getLast hne = c := by
    simp [h]
  unfold jsTrim at hne hl
  have := List.rdropWhile_last_not jsIsSpace _ hne
  rw [hl] at this
  simpa using this

theorem engineTitleCompany_words (lowerJS : Str → Str) (t : Str) (rest : List Str)
    (hno : jsIncludes t "|".toList = false ∧ jsIncludes t "-".toList = false)
    (hkey : jsIncludesAny (lowerJS t)
      ["grupo", "boticário", "company", "corp", "ltda", "s.a."] = true)
    (hn : 3 ≤ (t.splitOn ' ').length) :
    engineTitleCompany lowerJS (t :: rest)
      = (" ".toList.intercalate ((t.splitOn ' ').take 2),
          " ".toList.intercalate ((t.splitOn ' ').drop 2)) := by
  unfold engineTitleCompany
  simp only [List.headD_cons, hno.1, hno.2, Bool.false_eq_true, or_self, if_false, hkey, if_true,
    ge_iff_le, hn]

theorem scraperTitleCompany_words (lowerJS : Str → Str) (name : Str) (elems : List Elem)
    (t : Str) (rest : List Str) (x : Str) (ht : t = jsTrim x) (hne : t ≠ [])
    (hno : jsIncludes t "|".toList = false ∧ jsIncludes t "-".toList = false)
    (hscan : scraperCompanyScan name t elems = [])
    (hkey : jsIncludesAny t ["Grupo", "Boticário", "Company", "Corp"] = true)
    (hn : 3 ≤ (t.splitOn ' ').length) :
    scraperTitleCompany lowerJS name elems (t :: rest)
        = (" ".toList.intercalate ((t.splitOn ' ').take ((t.splitOn ' ').length / 2)),
            " ".toList.intercalate ((t.splitOn ' ').drop ((t.splitOn ' ').length / 2))) ∧
      " ".toList.intercalate ((t.splitOn ' ').take ((t.splitOn ' ').length / 2)) ≠ [] ∧
      " ".toList.intercalate ((t.splitOn ' ').drop ((t.splitOn ' ').length / 2)) ≠ [] := by
  have hcut := words_cut t ((t.splitOn ' ').length / 2) (by omega) (by omega)
  generalize hT : " ".toList.intercalate ((t.splitOn ' ').take ((t.splitOn ' ').length / 2)) = T
    at hcut ⊢
  generalize hC : " ".toList.intercalate ((t.splitOn ' ').drop ((t.splitOn ' ').length / 2)) = C
    at hcut ⊢
  have hTne : T ≠ [] := by
    intro h
    subst h
    have : jsTrim x = ' ' :: C := by
      rw [← ht, ← hcut]
      rfl
    have := jsTrim_head x ' ' C this
    simp [jsIsSpace] at this
  have hCne : C ≠ [] := by
    intro h
    subst h
    have : jsTrim x = T ++ [' '] := by
      rw [← ht, ← hcut]
      simp
    have := jsTrim_last x ' ' T this
    simp [jsIsSpace] at this
  refine ⟨?_, hTne, hCne⟩
  have hA : scraperSplitSep t [] = (t, []) := by
    unfold scraperSplitSep
    simp only [hno.1, hno.2, Bool.false_eq_true, or_self, if_false]
  have hB : scraperSplitWords t [] = (T, C) := by
    unfold scraperSplitWords
    simp only [hne, ne_eq, not_false_eq_true, and_self, if_true, hno.1, hno.2, Bool.false_eq_true,
      or_self, if_false, hkey, ge_iff_le, hn, hT, hC]
  unfold scraperTitleCompany
  simp only [List.length_cons, gt_iff_lt, Nat.zero_lt_succ, if_true, List.headD_cons, hA, hscan,
    hB, hCne, if_false, false_and]

/-- C20, counterexample: in the script of `engine.go` the title of three words
`Grupo Boticário Brasil` is cut after its second word, not after the first
`floor(3/2) = 1` word (`lowerJS` is what `toLowerCase` gives on this text); and in
the script of `scraper.go` a title that holds a keyword is not cut at all when a
subtitle element gives the company. -/
theorem engine_cuts_after_two_words :
    (engineExtractCard (fun s => s.map Char.toLower)
        ⟨some ⟨"Ann".toList, "u1".toList⟩,
          [⟨.div, [], "Grupo Boticário Brasil".toList, "Grupo Boticário Brasil".toList⟩],
          [], [], none⟩).map (fun p => (p.title, p.company))
        = some ("Grupo Boticário".toList, "Brasil".toList) ∧
      " ".toList.intercalate
        (("Grupo Boticário Brasil".toList.splitOn ' ').take
          (("Grupo Boticário Brasil".toList.splitOn ' ').length / 2)) = "Grupo".toList ∧
      (scraperExtractCard (fun s => s.map Char.toLower)
        ⟨some ⟨"Ann".toList, "u1".toList⟩,
          [⟨.div, [], [], "Grupo Alfa Beta Gama".toList⟩,
            ⟨.span, "entity-result__primary-subtitle".toList, [], "Acme Holding".toList⟩],
          [], [], none⟩).map (fun c => (c.title, c.company))
        = some (some "Grupo Alfa Beta Gama".toList, some "Acme Holding".toList) := by
  refine ⟨?_, ?_, ?_⟩ <;> decide

/-- C20, amended: for a card whose first candidate text `t` holds neither pipe
nor hyphen and has `n >= 3` words separated by single spaces: when the lower-cased
`t` holds one of `grupo`, `boticário`, `company`, `corp`, `ltda`, `s.a.`, the
script of `engine.go` sets the title to the first two words and the company to
the remaining words; when no subtitle element gives a company and `t` holds one
of `Grupo`, `Boticário`, `Company`, `Corp`, the script of `scraper.go` sets the
title to the first `floor(n/2)` words and the company to the remaining words; in
both scripts the title, a space and the company put together are `t`. -/
theorem title_company_words (lowerJS : Str → Str) (card : Card) (link : Link) (t : Str)
    (rest : List Str) (hlink : card.link = some link)
    (hno : jsIncludes t "|".toList = false ∧ jsIncludes t "-".toList = false)
    (hn : 3 ≤ (t.splitOn ' ').length) :
    (engineRelevantTexts (engineName link) card.elems = t :: rest →
      jsIncludesAny (lowerJS t) ["grupo", "boticário", "company", "corp", "ltda", "s.a."] = true →
      ∃ p, engineExtractCard lowerJS card = some p ∧
        p.title = " ".toList.intercalate ((t.splitOn ' ').take 2) ∧
        p.company = " ".toList.intercalate ((t.splitOn ' ').drop 2) ∧
        p.title ++ " ".toList ++ p.company = t) ∧
      (scraperRelevantTexts (scraperName link) card.elems = t :: rest →
        scraperCompanyScan (scraperName link) t card.elems = [] →
        jsIncludesAny t ["Grupo", "Boticário", "Company", "Corp"] = true →
        ∃ c, scraperExtractCard lowerJS card = some c ∧
          c.title = some (" ".toList.intercalate
            ((t.splitOn ' ').take ((t.splitOn ' ').length / 2))) ∧
          c.company = some (" ".toList.intercalate
            ((t.splitOn ' ').drop ((t.splitOn ' ').length / 2))) ∧
          " ".toList.intercalate ((t.splitOn ' ').take ((t.splitOn ' ').length / 2)) ++
            " ".toList ++
            " ".toList.intercalate ((t.splitOn ' ').drop ((t.splitOn ' ').length / 2)) = t) := by
  constructor
  · intro hrel hkey
    unfold engineExtractCard
    rw [hlink]
    simp only [hrel, engineTitleCompany_words lowerJS t rest hno hkey hn]
    exact ⟨_, rfl, rfl, rfl, words_cut t 2 (by omega) (by omega)⟩
  · intro hrel hscan hkey
    have hmem : t ∈ scraperRelevantTexts (scraperName link) card.elems := by
      rw [hrel]
      exact List.mem_cons_self _ _
    unfold scraperRelevantTexts at hmem
    obtain ⟨hmap, hfilter⟩ := List.mem_filter.1 hmem
    obtain ⟨elem, _, helem⟩ := List.mem_map.1 hmap
    have hne : t ≠ [] := by
      simp only [Bool.and_eq_true, decide_eq_true_eq] at hfilter
      exact hfilter.1.1.1.1.1.1
    obtain ⟨h1, h2, h3⟩ := scraperTitleCompany_words lowerJS (scraperName link) card.elems t rest
      elem.textContent helem.symm hne hno hscan hkey hn
    obtain ⟨c, hc, hct, hcc⟩ := scraperExtractCard_of_tc lowerJS card link _ _ hlink
      (by rw [hrel]; exact h1) h2 h3
    exact ⟨c, hc, hct, hcc, words_cut t _ (by omega) (by omega)⟩

/-- C20, witness: the candidate text `Diretor Grupo Alfa Beta`. -/
theorem title_company_words_witness :
    (∃ p, engineExtractCard (fun s => s.map Char.toLower)
        ⟨some ⟨"Ann".toList, "u1".toList⟩,
          [⟨.div, [], "Diretor Grupo Alfa Beta".toList, "Diretor Grupo Alfa Beta".toList⟩],
          [], [], none⟩ = some p ∧
        p.title = " ".toList.intercalate (("Diretor Grupo Alfa Beta".toList.splitOn ' ').take 2) ∧
        p.company
          = " ".toList.intercalate (("Diretor Grupo Alfa Beta".toList.splitOn ' ').drop 2) ∧
        p.title ++ " ".toList ++ p.company = "Diretor Grupo Alfa Beta".toList) ∧
      (∃ c, scraperExtractCard (fun s => s.map Char.toLower)
        ⟨some ⟨"Ann".toList, "u1".toList⟩,
          [⟨.div, [], "Diretor Grupo Alfa Beta".toList, "Diretor Grupo Alfa Beta".toList⟩],
          [], [], none⟩ = some c ∧
        c.title = some (" ".toList.intercalate
          (("Diretor Grupo Alfa Beta".toList.splitOn ' ').take
            (("Diretor Grupo Alfa Beta".toList.splitOn ' ').length / 2))) ∧
        c.company = some (" ".toList.intercalate
          (("Diretor Grupo Alfa Beta".toList.splitOn ' ').drop
            (("Diretor Grupo Alfa Beta".toList.splitOn ' ').length / 2))) ∧
        " ".toList.intercalate
            (("Diretor Grupo Alfa Beta".toList.splitOn ' ').take
              (("Diretor Grupo Alfa Beta".toList.splitOn ' ').length / 2)) ++
          " ".toList ++
          " ".toList.intercalate
            (("Diretor Grupo Alfa Beta".toList.splitOn ' ').drop
              (("Diretor Grupo Alfa Beta".toList.splitOn ' ').length / 2))
          = "Diretor Grupo Alfa Beta".toList) :=
  ⟨(title_company_words (fun s => s.map Char.toLower)
      ⟨some ⟨"Ann".toList, "u1".toList⟩,
        [⟨.div, [], "Diretor Grupo Alfa Beta".toList, "Diretor Grupo Alfa Beta".toList⟩],
        [], [], none⟩
      ⟨"Ann".toList, "u1".toList⟩ "Diretor Grupo Alfa Beta".toList [] rfl
      ⟨by decide, by decide⟩ (by decide)).1 (by decide) (by decide),
    (title_company_words (fun s => s.map Char.toLower)
      ⟨some ⟨"Ann".toList, "u1".toList⟩,
        [⟨.div, [], "Diretor Grupo Alfa Beta".toList, "Diretor Grupo Alfa Beta".toList⟩],
        [], [], none⟩
      ⟨"Ann".toList, "u1".toList⟩ "Diretor Grupo Alfa Beta".toList [] rfl
      ⟨by decide, by decide⟩ (by decide)).2 (by decide) (by decide) (by decide)⟩

/-! ## `RemoveDup` applied twice -/

theorem keepFirst_of_nodup (key : Contact → Str) (l : List Contact) (seen : List Str)
    (hseen : ∀ c ∈ l, key c ∉ seen) (hnd : (l.map key).Nodup) : keepFirst key seen l = l := by
  induction l generalizing seen with
  | nil => rfl
  | cons c l ih =>
    have hc : key c ∉ seen := hseen c (List.mem_cons_self _ _)
    rw [List.map_cons, List.nodup_cons] at hnd
    unfold keepFirst
    rw [if_neg hc, ih (key c :: seen) ?_ hnd.2]
    intro d hd hmem
    rcases List.mem_cons.1 hmem with h | h
    · exact hnd.1 (h ▸ List.mem_map_of_mem key hd)
    · exact hseen d (List.mem_cons_of_mem _ hd) h

/-- C29: `RemoveDup` is idempotent: `RemoveDup(RemoveDup(cs)) = RemoveDup(cs)` for
every contact list. -/
theorem RemoveDup_idempotent (ul : Char → Char) (cs : List Contact) :
    RemoveDup ul (RemoveDup ul cs) = RemoveDup ul cs := by
  rw [RemoveDup_eq_keepFirst ul (RemoveDup ul cs), RemoveDup_eq_keepFirst ul cs]
  exact keepFirst_of_nodup _ _ [] (fun _ _ h => by cases h) (keepFirst_keys _ [] cs).2

/-! ## The weekly counter and the ledger pages -/

theorem Weekday_range (t : GoTime) : 0 ≤ t.Weekday ∧ t.Weekday ≤ 6 := by
  unfold GoTime.Weekday
  omega

theorem daysToMonday_eq (w : Int) (h0 : 0 ≤ w) (h6 : w ≤ 6) :
    daysToMonday w = (w + 6) % 7 := by
  unfold daysToMonday
  simp only
  split <;> omega

theorem getWeekStart_localDay (t : GoTime) :
    (getWeekStart t).localDay = t.localDay - daysToMonday t.Weekday ∧
      ((getWeekStart t).unixNano + (getWeekStart t).offset) % nsPerDay = 0 := by
  unfold getWeekStart GoTime.localDay
  simp only [Int.sub_add_cancel]
  have hpos : nsPerDay ≠ 0 := by decide
  exact ⟨Int.mul_ediv_cancel _ hpos, Int.mul_emod_left _ _⟩

/-- C26: for every weekday `w` in 0..6 (Sunday = 0) the number of days that
`getWeekStart` subtracts is `(w + 6) mod 7`, which lies in 0..6 and is 0 for
Monday and 6 for Sunday; the result is a Monday, at 00:00:00 of the location,
whose calendar day is the day of `t` or one of the six days before it. -/
theorem getWeekStart_monday (t : GoTime) :
    (∀ w : Int, 0 ≤ w → w ≤ 6 →
        daysToMonday w = (w + 6) % 7 ∧ 0 ≤ daysToMonday w ∧ daysToMonday w ≤ 6) ∧
      daysToMonday 1 = 0 ∧ daysToMonday 0 = 6 ∧
      0 ≤ t.Weekday ∧ t.Weekday ≤ 6 ∧
      (getWeekStart t).localDay = t.localDay - (t.Weekday + 6) % 7 ∧
      (getWeekStart t).Weekday = 1 ∧
      ((getWeekStart t).unixNano + (getWeekStart t).offset) % nsPerDay = 0 ∧
      (getWeekStart t).localDay ≤ t.localDay ∧ t.localDay - (getWeekStart t).localDay ≤ 6 ∧
      (getWeekStart t).offset = t.offset := by
  have hr := Weekday_range t
  have hd := daysToMonday_eq t.Weekday hr.1 hr.2
  have hl := getWeekStart_localDay t
  refine ⟨?_, by decide, by decide, hr.1, hr.2, ?_, ?_, hl.2, ?_, ?_, rfl⟩
  · intro w h0 h6
    have := daysToMonday_eq w h0 h6
    omega
  · rw [hl.1, hd]
  · have hw : t.Weekday = (t.localDay + 4) % 7 := rfl
    unfold GoTime.Weekday
    rw [hl.1, hd]
    omega
  · rw [hl.1, hd]
    omega
  · rw [hl.1, hd]
    omega

/-- C26, witness: the weekdays Wednesday and Sunday. -/
theorem getWeekStart_monday_witness :
    (daysToMonday 3 = (3 + 6) % 7 ∧ 0 ≤ daysToMonday 3 ∧ daysToMonday 3 ≤ 6) ∧
      (daysToMonday 0 = (0 + 6) % 7 ∧ 0 ≤ daysToMonday 0 ∧ daysToMonday 0 ≤ 6) :=
  ⟨(getWeekStart_monday ⟨0, 0⟩).1 3 (by decide) (by decide),
    (getWeekStart_monday ⟨0, 0⟩).1 0 (by decide) (by decide)⟩

theorem wrapInt64_of_range (x : Int) (h1 : -(2 ^ 63) ≤ x) (h2 : x < 2 ^ 63) :
    wrapInt64 x = x := by
  unfold wrapInt64
  rw [Int.emod_eq_of_lt (by omega) (by omega)]
  omega

/-- C27: for every non-negative clock reading `n`, in nanoseconds, the delay slept
between two connect attempts of `Scraper.CaptureVisibleAndConnect` is
`500 + (n mod 1000)` milliseconds, at least 500 ms and less than 1500 ms. -/
theorem jitterDelay_bounds (n : Int) (hn : 0 ≤ n) :
    jitterDelay n = (500 + n % 1000) * 1000000 ∧
      500 * 1000000 ≤ jitterDelay n ∧ jitterDelay n < 1500 * 1000000 := by
  have ht : Int.tmod n 1000 = n % 1000 := Int.tmod_eq_emod hn (by decide)
  have h1 : 0 ≤ n % 1000 := Int.emod_nonneg _ (by decide)
  have h2 : n % 1000 < 1000 := Int.emod_lt_of_pos _ (by decide)
  unfold jitterDelay
  rw [ht, wrapInt64_of_range (500 + n % 1000) (by omega) (by omega),
    wrapInt64_of_range _ (by omega) (by omega)]
  omega

/-- C27, witness: the clock reading 1234567 ns gives 1067 ms. -/
theorem jitterDelay_bounds_witness :
    jitterDelay 1234567 = (500 + 1234567 % 1000) * 1000000 ∧
      500 * 1000000 ≤ jitterDelay 1234567 ∧ jitterDelay 1234567 < 1500 * 1000000 :=
  jitterDelay_bounds 1234567 (by decide)

theorem foldl_count_eq_countP (p : InviteRecord → Bool) (l : List InviteRecord) (c : Int) :
    l.foldl (fun count invite => if p invite then count + 1 else count) c
      = c + (l.countP p : Nat) := by
  induction l generalizing c with
  | nil => simp
  | cons a l ih =>
    rw [List.foldl_cons, ih, List.countP_cons]
    by_cases h : p a = true
    · simp only [h, if_true]
      push_cast
      omega
    · simp [h]

theorem ListInvites_first_page (ledger : List InviteRecord) :
    ListInvites none ledger 0 10000
      = .ok ((ledger.map storedRecord).take 10000, (ledger.length : Int)) := by
  unfold ListInvites
  cases ledger with
  | nil => rfl
  | cons first others =>
    have h0 : wrapInt64 (0 * 10000) = 0 := by decide
    have h1 : wrapInt64 (0 + 10000) = 10000 := by decide
    simp only [h0, h1, List.length_map]
    have hlen : ¬ ((0 : Int) ≥ ((first :: others).length : Int)) := by
      simp only [List.length_cons]
      push_cast
      omega
    rw [if_neg hlen]
    by_cases hbig : (10000 : Int) > ((first :: others).length : Int)
    · rw [if_pos hbig, if_pos ⟨le_refl _, by omega⟩]
      simp only [Int.toNat_zero, List.drop_zero, Int.sub_zero, Int.toNat_ofNat]
      have hnat : (first :: others).length ≤ 10000 := by omega
      rw [List.take_of_length_le (by simp), List.take_of_length_le (by simpa using hnat)]
    · rw [if_neg hbig, if_pos ⟨le_refl _, by decide⟩]
      simp

/-- What `CountThisWeek` counts: among the first 10000 records of the ledger,
those of the user stamped, in whole seconds, strictly after the start of the week
and strictly before its end. -/
theorem CountThisWeek_eq (now : GoTime) (ledger : List InviteRecord) (userEmail : Str) :
    CountThisWeek now none ledger userEmail
      = .ok ((((ledger.map storedRecord).take 10000).countP
          (inWeekOf userEmail (getWeekStart now) ((getWeekStart now).AddDays 7)) : Nat) : Int) := by
  unfold CountThisWeek
  simp only [ListInvites_first_page, foldl_count_eq_countP]
  simp

/-- C24, the code at the failing input: on Wednesday 1970-01-07 at noon UTC the
week starts at Monday 1970-01-05 00:00:00, and an invite of the user stamped at
that instant is not counted, nor is one sent during the first second of the week;
an invite stamped one second later is. -/
theorem CountThisWeek_skips_week_start :
    getWeekStart ⟨561600000000000, 0⟩ = ⟨345600000000000, 0⟩ ∧
      CountThisWeek ⟨561600000000000, 0⟩ none
          [⟨345600000000000, "me@x.example".toList, [], [], [], [], [], []⟩]
          "me@x.example".toList = .ok 0 ∧
      CountThisWeek ⟨561600000000000, 0⟩ none
          [⟨345600999999999, "me@x.example".toList, [], [], [], [], [], []⟩]
          "me@x.example".toList = .ok 0 ∧
      CountThisWeek ⟨561600000000000, 0⟩ none
          [⟨345601000000000, "me@x.example".toList, [], [], [], [], [], []⟩]
          "me@x.example".toList = .ok 1 := by
  refine ⟨?_, ?_, ?_, ?_⟩ <;> decide

/-- C25, the code at the failing input: with 10000 older records in the ledger,
an invite of the user that lies inside the current week and is the record 10001
does not contribute to the count. -/
theorem CountThisWeek_ignores_rows_after_10000 :
    inWeekOf "me@x.example".toList (getWeekStart ⟨561600000000000, 0⟩)
        ((getWeekStart ⟨561600000000000, 0⟩).AddDays 7)
        (storedRecord ⟨432000000000000, "me@x.example".toList, [], [], [], [], [], []⟩) = true ∧
      CountThisWeek ⟨561600000000000, 0⟩ none
          [⟨432000000000000, "me@x.example".toList, [], [], [], [], [], []⟩]
          "me@x.example".toList = .ok 1 ∧
      CountThisWeek ⟨561600000000000, 0⟩ none
          (List.replicate 10000 ⟨0, "me@x.example".toList, [], [], [], [], [], []⟩ ++
            [⟨432000000000000, "me@x.example".toList, [], [], [], [], [], []⟩])
          "me@x.example".toList = .ok 0 := by
  refine ⟨by decide, by decide, ?_⟩
  rw [CountThisWeek_eq, List.map_append, List.map_replicate,
    List.take_left' (List.length_replicate _ _), List.countP_replicate]
  have : inWeekOf "me@x.example".toList (getWeekStart ⟨561600000000000, 0⟩)
      ((getWeekStart ⟨561600000000000, 0⟩).AddDays 7)
      (storedRecord ⟨0, "me@x.example".toList, [], [], [], [], [], []⟩) = false := by decide
  rw [this]
  rfl

/-- For a page number and a page size that are not negative, and a product that
fits a Go `int`, `ListInvites` does not panic. -/
theorem ListInvites_no_panic (ioErr : Option GoError) (ledger : List InviteRecord)
    (page size : Int) (hp : 0 ≤ page) (hs : 0 ≤ size) (hfit : page * size + size < 2 ^ 63) :
    ListInvites ioErr ledger page size ≠ .panic := by
  unfold ListInvites
  cases ioErr with
  | some err => simp
  | none =>
    cases ledger with
    | nil => simp
    | cons first others =>
      have hps : 0 ≤ page * size := Int.mul_nonneg hp hs
      have h0 : wrapInt64 (page * size) = page * size :=
        wrapInt64_of_range _ (by omega) (by omega)
      have h1 : wrapInt64 (page * size + size) = page * size + size :=
        wrapInt64_of_range _ (by omega) (by omega)
      simp only [h0, h1]
      split
      · simp
      · rename_i hlt
        rw [if_pos]
        · simp
        · refine ⟨hps, ?_⟩
          split <;> omega

/-- C30, the code at the failing input: with one record in the ledger, the page 0
of size -1 makes `ListInvites` take the slice `invites[0:-1]`, which panics; so
does the page -1 of size 5, with `invites[-5:0]`. -/
theorem ListInvites_negative_panics :
    ListInvites none [⟨0, "me@x.example".toList, [], [], [], [], [], []⟩] 0 (-1) = .panic ∧
      ListInvites none [⟨0, "me@x.example".toList, [], [], [], [], [], []⟩] (-1) 5 = .panic := by
  constructor <;> decide

/-! ## Cards without a profile link -/

theorem engineScriptLoop_eq (lowerJS : Str → Str) (maxCardsRead : Int) (cards : List Card)
    (count : Int) (results : List Profile) :
    engineScriptLoop lowerJS maxCardsRead cards count results
      = results ++ (cards.filterMap (engineExtractCard lowerJS)).take
          (maxCardsRead - count).toNat := by
  induction cards generalizing count results with
  | nil => simp [engineScriptLoop]
  | cons card rest ih =>
    unfold engineScriptLoop
    split
    · have : (maxCardsRead - count).toNat = 0 := by omega
      simp [this]
    · rename_i hlt
      cases hc : engineExtractCard lowerJS card with
      | none =>
        simp only [List.filterMap_cons, hc]
        exact ih count results
      | some profile =>
        simp only [List.filterMap_cons, hc]
        rw [ih (count + 1) (results ++ [profile])]
        have : (maxCardsRead - count).toNat = (maxCardsRead - (count + 1)).toNat + 1 := by omega
        rw [this, List.take_succ_cons]
        simp

theorem scraperScriptLoop_contacts (lowerJS : Str → Str) (cards : List Card) (i : Nat)
    (st : List RawContact × List Card) :
    (scraperScriptLoop lowerJS cards i st).1
      = st.1 ++ (cards.take (60 - i)).filterMap (scraperExtractCard lowerJS) := by
  induction cards generalizing i st with
  | nil => simp [scraperScriptLoop]
  | cons card rest ih =>
    unfold scraperScriptLoop
    split
    · have : 60 - i = 0 := by omega
      simp [this]
    · rename_i hlt
      have : 60 - i = (60 - (i + 1)) + 1 := by omega
      rw [ih, this, List.take_succ_cons, List.filterMap_cons]
      cases scraperExtractCard lowerJS card <;> simp

/-- C22: a card without profile link gives no contact and does not stop the
script: in both scripts a card gives no contact exactly when it has no link, and
the contacts returned for a page are those of the cards that have a link, in
document order, among the cards the script visits, that is until `MaxCardsRead`
contacts are found in `engine.go` and among the first 60 cards in `scraper.go`. -/
theorem linkless_cards_skipped (lowerJS : Str → Str) (maxCardsRead : Int) (page : List Card) :
    (∀ card, engineExtractCard lowerJS card = none ↔ card.link = none) ∧
      (∀ card, scraperExtractCard lowerJS card = none ↔ card.link = none) ∧
      engineScript lowerJS maxCardsRead page
        = (page.filterMap (engineExtractCard lowerJS)).take maxCardsRead.toNat ∧
      (scraperScript lowerJS page).1
        = (page.take 60).filterMap (scraperExtractCard lowerJS) := by
  refine ⟨?_, ?_, ?_, ?_⟩
  · intro card
    unfold engineExtractCard
    cases card.link <;> simp
  · intro card
    unfold scraperExtractCard
    cases card.link <;> simp
  · unfold engineScript
    rw [engineScriptLoop_eq]
    simp
  · unfold scraperScript
    rw [scraperScriptLoop_contacts]
    simp

/-! ## Captured before invited -/

theorem tryConnect_trace_only_logs (pg : ConnectPage) :
    ∀ ev ∈ (tryConnect pg).2, ev.isCaptured = false ∧ ev.isInviteSent = false := by
  unfold tryConnect
  split <;> simp [Event.isCaptured, Event.isInviteSent]

theorem append_eq_split (l chunk pre post : List Event) (e : Event)
    (h : l ++ chunk = pre ++ e :: post) :
    (∃ post', l = pre ++ e :: post') ∨ (∃ pre', pre = l ++ pre' ∧ chunk = pre' ++ e :: post) := by
  rcases List.append_eq_append_iff.1 h with ⟨a, ha, hb⟩ | ⟨c, hc, hd⟩
  · exact Or.inr ⟨a, ha, hb⟩
  · cases c with
    | nil =>
      right
      simp only [List.append_nil] at hc
      simp only [List.nil_append] at hd
      exact ⟨[], by simp [hc], by simp [hd]⟩
    | cons x c' =>
      left
      simp only [List.cons_append, List.cons.injEq] at hd
      exact ⟨c', by rw [hc, hd.1]⟩

theorem invite_at_end (body : List Event) (hbody : ∀ ev ∈ body, ev.isInviteSent = false)
    (ct c : Contact) (pre post : List Event)
    (h : body ++ [Event.InviteSent ct] = pre ++ Event.InviteSent c :: post) :
    pre = body ∧ c = ct := by
  rcases append_eq_split _ _ _ _ _ h with ⟨post', hp⟩ | ⟨pre', hpre, hp⟩
  · have := hbody (Event.InviteSent c) (by rw [hp]; simp)
    simp [Event.isInviteSent] at this
  · cases pre' with
    | nil =>
      simp only [List.nil_append, List.cons.injEq, Event.InviteSent.injEq] at hp
      exact ⟨by simp [hpre], hp.1.symm⟩
    | cons x xs =>
      simp only [List.cons_append, List.cons.injEq] at hp
      have := hp.2
      cases xs <;> simp at this

theorem trace_reassoc (t c l g i : List Event) :
    t ++ c ++ l ++ g ++ i = t ++ ((c ++ l ++ g) ++ i) := by
  simp

/-- What holds of the loop state of `Engine.captureAndConnect` at every round. -/
theorem captureLoop_captured_first (cfg : RunConfig) (connect : Nat → ConnectPage)
    (result : List Profile) (i : Nat) (st : CaptureState)
    (hlen : st.contacts.length = i)
    (hcap : st.trace.filter Event.isCaptured = st.contacts.map Event.Captured)
    (hcount : st.trace.countP Event.isInviteSent ≤ st.trace.countP Event.isCaptured)
    (hinv : ∀ pre c post, st.trace = pre ++ Event.InviteSent c :: post →
      Event.Captured c ∈ pre ∧
        ∃ j, st.contacts[j]? = some c ∧ (tryConnect (connect j)).1 = true) :
    (captureLoop cfg connect result i st).trace.filter Event.isCaptured
        = (captureLoop cfg connect result i st).contacts.map Event.Captured ∧
      (captureLoop cfg connect result i st).trace.countP Event.isInviteSent
        ≤ (captureLoop cfg connect result i st).trace.countP Event.isCaptured ∧
      (∀ pre c post,
        (captureLoop cfg connect result i st).trace = pre ++ Event.InviteSent c :: post →
        Event.Captured c ∈ pre ∧
          ∃ j, (captureLoop cfg connect result i st).contacts[j]? = some c ∧
            (tryConnect (connect j)).1 = true) := by
  induction result generalizing i st with
  | nil => exact ⟨hcap, hcount, hinv⟩
  | cons profile rest ih =>
    have hlogs := tryConnect_trace_only_logs (connect i)
    have hflog : (tryConnect (connect i)).2.filter Event.isCaptured = [] := by
      rw [List.filter_eq_nil_iff]
      intro ev hev
      simp [(hlogs ev hev).1]
    have hclog : (tryConnect (connect i)).2.countP Event.isCaptured = 0 ∧
        (tryConnect (connect i)).2.countP Event.isInviteSent = 0 := by
      constructor <;> rw [List.countP_eq_zero] <;> intro ev hev
      · simp [(hlogs ev hev).1]
      · simp [(hlogs ev hev).2]
    -- an invite found in a stretch of the trace that holds none but at its end
    have hold : ∀ (new : Contact) (chunk : List Event),
        (∀ ev ∈ chunk, ev.isInviteSent = false) →
        ∀ pre c post, st.trace ++ chunk = pre ++ Event.InviteSent c :: post →
          Event.Captured c ∈ pre ∧
            ∃ j, (st.contacts ++ [new])[j]? = some c ∧ (tryConnect (connect j)).1 = true := by
      intro new chunk hchunk pre c post h
      rcases append_eq_split _ _ _ _ _ h with ⟨post', hp⟩ | ⟨pre', _, hp⟩
      · obtain ⟨h1, j, hj, hok⟩ := hinv pre c post' hp
        refine ⟨h1, j, ?_, hok⟩
        rw [List.getElem?_append_left (List.getElem?_eq_some_iff.1 hj).1]
        exact hj
      · have := hchunk (Event.InviteSent c) (by rw [hp]; simp)
        simp [Event.isInviteSent] at this
    unfold captureLoop
    split
    · exact ⟨hcap, hcount, hinv⟩
    · simp only
      split
      · split
        · rename_i hok
          apply ih
          · simp [hlen]
          · simp [List.filter_append, hcap, hflog, Event.isCaptured]
          · simp only [List.countP_append, hclog.1, hclog.2]
            simp [Event.isCaptured, Event.isInviteSent]
            omega
          · intro pre c post h
            dsimp only at h
            rw [trace_reassoc] at h
            rcases append_eq_split _ _ _ _ _ h with ⟨post', hp⟩ | ⟨pre', hpre, hp⟩
            · obtain ⟨h1, j, hj, hok'⟩ := hinv pre c post' hp
              refine ⟨h1, j, ?_, hok'⟩
              dsimp only
              rw [List.getElem?_append_left (List.getElem?_eq_some_iff.1 hj).1]
              exact hj
            · obtain ⟨hbody, hc⟩ := invite_at_end _ (by
                intro ev hev
                simp only [List.mem_append, List.mem_singleton] at hev
                rcases hev with (rfl | rfl) | hev
                · rfl
                · rfl
                · exact (hlogs ev hev).2) _ c pre' post hp
              subst hc
              refine ⟨?_, i, ?_, hok⟩
              · rw [hpre, hbody]
                simp
              · dsimp only
                rw [← hlen]
                simp
        · apply ih
          · simp [hlen]
          · simp [List.filter_append, hcap, hflog, Event.isCaptured]
          · simp only [List.countP_append, hclog.1, hclog.2]
            simp [Event.isCaptured, Event.isInviteSent]
            omega
          · intro pre c post h
            dsimp only at h
            rw [List.append_assoc, List.append_assoc] at h
            exact hold _ _ (by
              intro ev hev
              simp only [List.mem_append, List.mem_singleton] at hev
              rcases hev with rfl | rfl | hev
              · rfl
              · rfl
              · exact (hlogs ev hev).2) pre c post h
      · apply ih
        · simp [hlen]
        · simp [List.filter_append, hcap, Event.isCaptured]
        · simp only [List.countP_append]
          simp [Event.isCaptured, Event.isInviteSent]
          omega
        · intro pre c post h
          exact hold _ _ (by
            intro ev hev
            simp only [List.mem_singleton] at hev
            subst hev
            rfl) pre c post h

/-- The contacts returned by the loop of `Engine.captureAndConnect` are those of
the profiles it is given, up to the index `MaxCardsRead`. -/
theorem captureLoop_contacts (cfg : RunConfig) (connect : Nat → ConnectPage)
    (result : List Profile) (i : Nat) (st : CaptureState) :
    (captureLoop cfg connect result i st).contacts
      = st.contacts ++ (result.take (cfg.MaxCardsRead - i).toNat).map (fun profile =>
          ({ Name := profile.name, Title := profile.title, Company := profile.company,
             Location := profile.location, LinkedIn := profile.linkedin_url } : Contact)) := by
  induction result generalizing i st with
  | nil => simp [captureLoop]
  | cons profile rest ih =>
    unfold captureLoop
    split
    · have : (cfg.MaxCardsRead - i).toNat = 0 := by omega
      simp [this]
    · have e : (cfg.MaxCardsRead - (i : Int)).toNat
          = (cfg.MaxCardsRead - ((i + 1 : Nat) : Int)).toNat + 1 := by
        push_cast
        omega
      simp only
      split
      · split <;> rw [ih, e, List.take_succ_cons] <;> simp
      · rw [ih, e, List.take_succ_cons]
        simp

/-- C23: within one query the contacts processed are those of the profiles the
extraction script returned, up to `MaxCardsRead` of them, and every one of them
is reported through `OnCaptured`, in order, whatever its connect attempt gives;
`OnInviteSent` is fired only for a contact that was reported through
`OnCaptured` before and whose connect attempt returned success; and the
`OnInviteSent` calls are never more than the `OnCaptured` calls.  When the
script fails no callback is fired. -/
theorem invite_only_after_captured (cfg : RunConfig) (w : QueryWorld) :
    (∀ result, w.capture = .ok result →
        (captureAndConnect cfg w).contacts
          = (result.take cfg.MaxCardsRead.toNat).map (fun profile =>
              ({ Name := profile.name, Title := profile.title, Company := profile.company,
                 Location := profile.location, LinkedIn := profile.linkedin_url } : Contact))) ∧
      (∀ err, w.capture = .error err →
        (captureAndConnect cfg w).contacts = [] ∧ (captureAndConnect cfg w).trace = []) ∧
      (captureAndConnect cfg w).trace.filter Event.isCaptured
        = (captureAndConnect cfg w).contacts.map Event.Captured ∧
      (∀ pre c post, (captureAndConnect cfg w).trace = pre ++ Event.InviteSent c :: post →
        Event.Captured c ∈ pre ∧
          ∃ j, (captureAndConnect cfg w).contacts[j]? = some c ∧
            (tryConnect (w.connect j)).1 = true) ∧
      (captureAndConnect cfg w).trace.countP Event.isInviteSent
        ≤ (captureAndConnect cfg w).trace.countP Event.isCaptured := by
  refine ⟨?_, ?_, ?_⟩
  · intro result h
    unfold captureAndConnect
    rw [h]
    simp only
    rw [captureLoop_contacts]
    simp
  · intro err h
    unfold captureAndConnect
    rw [h]
    exact ⟨rfl, rfl⟩
  · unfold captureAndConnect
    split
    · refine ⟨rfl, ?_, le_refl _⟩
      intro pre c post h
      simp at h
    · rename_i result _
      have := captureLoop_captured_first cfg w.connect result 0 ⟨[], 0, []⟩ rfl rfl (le_refl _)
        (fun pre c post h => by simp at h)
      exact ⟨this.1, this.2.2, this.2.1⟩

/-- C23, witness: two profiles, the connect attempt of the first one fails and
the attempt of the second one succeeds; both are reported as captured, and the
invite of the second one comes after its capture. -/
theorem invite_only_after_captured_witness :
    (captureAndConnect ⟨60, 3, [], true⟩
        ⟨none, none, .ok 2,
          .ok [⟨"Ann".toList, [], [], [], "u1".toList⟩,
            ⟨"Bob".toList, [], [], [], "u2".toList⟩],
          fun i => ⟨none, decide (i = 1), false⟩⟩).contacts
        = [⟨"Ann".toList, [], [], [], "u1".toList⟩, ⟨"Bob".toList, [], [], [], "u2".toList⟩] ∧
      Event.Captured ⟨"Bob".toList, [], [], [], "u2".toList⟩ ∈
        [Event.Captured ⟨"Ann".toList, [], [], [], "u1".toList⟩,
          Event.Log (.tryingConnect [] "Ann".toList),
          Event.Captured ⟨"Bob".toList, [], [], [], "u2".toList⟩,
          Event.Log (.tryingConnect [] "Bob".toList)] :=
  ⟨(invite_only_after_captured ⟨60, 3, [], true⟩
      ⟨none, none, .ok 2,
        .ok [⟨"Ann".toList, [], [], [], "u1".toList⟩, ⟨"Bob".toList, [], [], [], "u2".toList⟩],
        fun i => ⟨none, decide (i = 1), false⟩⟩).1 _ rfl,
    ((invite_only_after_captured ⟨60, 3, [], true⟩
      ⟨none, none, .ok 2,
        .ok [⟨"Ann".toList, [], [], [], "u1".toList⟩, ⟨"Bob".toList, [], [], [], "u2".toList⟩],
        fun i => ⟨none, decide (i = 1), false⟩⟩).2.2.2.1
    [Event.Captured ⟨"Ann".toList, [], [], [], "u1".toList⟩,
      Event.Log (.tryingConnect [] "Ann".toList),
      Event.Captured ⟨"Bob".toList, [], [], [], "u2".toList⟩,
      Event.Log (.tryingConnect [] "Bob".toList)]
    ⟨"Bob".toList, [], [], [], "u2".toList⟩ [] rfl).1⟩

/-! ## `NormalizeProfileURL` applied twice -/

theorem isPrefixOf_iff_take (sub a : Str) : sub.isPrefixOf a = true ↔ a.take sub.length = sub := by
  rw [List.isPrefixOf_iff_prefix, List.prefix_iff_eq_take]
  exact eq_comm

theorem IndexFrom_length (sub s : Str) (n k : Nat) (h : IndexFrom sub s n = (n : Int) + k) :
    k + sub.length ≤ s.length := by
  induction s generalizing n k with
  | nil =>
    unfold IndexFrom at h
    split at h
    · rename_i hp
      have := (List.isPrefixOf_iff_prefix.1 hp).length_le
      omega
    · omega
  | cons c cs ih =>
    unfold IndexFrom at h
    split at h
    · rename_i hp
      have := (List.isPrefixOf_iff_prefix.1 hp).length_le
      omega
    · rcases IndexFrom_range sub cs (n + 1) with h1 | ⟨h1, _⟩
      · omega
      · obtain ⟨k', rfl⟩ : ∃ k', k = k' + 1 := ⟨k - 1, by omega⟩
        have := ih (n + 1) k' (by rw [h]; push_cast; ring)
        simp only [List.length_cons]
        omega

/-- The first index of `sub` depends only on the code points up to the end of
that first instance. -/
theorem IndexFrom_take_congr (sub : Str) (hsub : sub ≠ []) (s s' : Str) (n k : Nat)
    (h : IndexFrom sub s n = (n : Int) + k)
    (ht : s'.take (k + sub.length) = s.take (k + sub.length)) :
    IndexFrom sub s' n = (n : Int) + k := by
  induction s generalizing s' n k with
  | nil =>
    unfold IndexFrom at h
    split at h
    · rename_i hp
      have := (List.isPrefixOf_iff_prefix.1 hp).length_le
      exact absurd (List.length_eq_zero.1 (by simpa using this)) hsub
    · omega
  | cons c cs ih =>
    have hlen := IndexFrom_length sub (c :: cs) n k h
    unfold IndexFrom at h
    split at h
    · rename_i hp
      have hk : k = 0 := by omega
      subst hk
      simp only [Nat.zero_add] at ht
      have hp' : sub.isPrefixOf s' = true := by
        rw [isPrefixOf_iff_take, ht]
        exact (isPrefixOf_iff_take _ _).1 hp
      cases s' with
      | nil =>
        unfold IndexFrom
        simp [hp']
      | cons c' cs' =>
        unfold IndexFrom
        simp [hp']
    · rename_i hp
      rcases IndexFrom_range sub cs (n + 1) with h1 | ⟨h1, _⟩
      · omega
      · obtain ⟨k', rfl⟩ : ∃ k', k = k' + 1 := ⟨k - 1, by omega⟩
        have hpos : sub.length ≠ 0 := fun e => hsub (List.length_eq_zero.1 e)
        cases s' with
        | nil =>
          have := congrArg List.length ht
          simp only [List.take_nil, List.length_nil, List.length_take, List.length_cons] at this hlen
          omega
        | cons c' cs' =>
          have e : k' + 1 + sub.length = (k' + sub.length) + 1 := by omega
          rw [e, List.take_succ_cons, List.take_succ_cons, List.cons.injEq] at ht
          obtain ⟨rfl, ht'⟩ := ht
          have hp2 : ¬ sub.isPrefixOf (c' :: cs') = true := by
            rw [isPrefixOf_iff_take] at hp ⊢
            intro hh
            apply hp
            have e1 : (c' :: cs').take sub.length
                = ((c' :: cs').take (k' + sub.length + 1)).take sub.length := by
              rw [List.take_take, Nat.min_eq_left (by omega)]
            have e2 : (c' :: cs).take sub.length
                = ((c' :: cs).take (k' + sub.length + 1)).take sub.length := by
              rw [List.take_take, Nat.min_eq_left (by omega)]
            rw [e2, List.take_succ_cons, ← ht', ← List.take_succ_cons, ← e1]
            exact hh
          unfold IndexFrom
          rw [if_neg hp2, ih cs' (n + 1) k' (by rw [h]; push_cast; ring) ht']
          push_cast
          ring

theorem Trim_idempotent (s cutset : Str) : Trim (Trim s cutset) cutset = Trim s cutset := by
  have hd : (Trim s cutset).dropWhile (fun c => cutset.contains c) = Trim s cutset := by
    rw [List.dropWhile_eq_self_iff]
    intro hl
    have hne : Trim s cutset ≠ [] := List.ne_nil_of_length_pos hl
    have hpre : Trim s cutset <+: s.dropWhile (fun c => cutset.contains c) :=
      List.rdropWhile_prefix _ _
    have hne2 : s.dropWhile (fun c => cutset.contains c) ≠ [] := by
      intro e
      rw [e] at hpre
      exact hne (List.prefix_nil.1 hpre)
    have h1 := List.head_dropWhile_not (fun c => cutset.contains c) s hne2
    have h2 := hpre.head hne
    have h3 : (Trim s cutset).get ⟨0, hl⟩ = (Trim s cutset).head hne := List.get_mk_zero hl
    rw [h3, h2]
    simp only [h1]
    simp
  have hr : (Trim s cutset).rdropWhile (fun c => cutset.contains c) = Trim s cutset := by
    rw [List.rdropWhile_eq_self_iff]
    intro hl
    rw [Trim_getLast s cutset hl]
    simp
  show ((Trim s cutset).dropWhile _).rdropWhile _ = _
  rw [hd, hr]

theorem NormalizeProfileURL_of_no_query (s : Str) (h : '?' ∉ s) :
    NormalizeProfileURL s
      = if Index s "/in/".toList = -1 then s
        else s.take (Index s "/in/".toList + 4).toNat
          ++ Trim (s.drop (Index s "/in/".toList + 4).toNat) "/".toList := by
  have hq : (Split s "?".toList).headD [] = s := by
    rw [Split_headD]
    have : Index s "?".toList = -1 := IndexFrom_singleton_of_not_mem '?' s 0 h
    rw [this]
    rfl
  unfold NormalizeProfileURL
  by_cases hs : s = []
  · subst hs
    rfl
  · rw [if_neg hs]
    simp only [hq]

theorem NormalizeProfileURL_head (raw : Str) :
    NormalizeProfileURL raw = NormalizeProfileURL ((Split raw "?".toList).headD []) := by
  by_cases hr : raw = []
  · subst hr
    rfl
  · have hq : '?' ∉ (Split raw "?".toList).headD [] := Split_head_no_sep raw '?'
    rw [NormalizeProfileURL_of_no_query _ hq]
    unfold NormalizeProfileURL
    rw [if_neg hr]

theorem NormalizeProfileURL_fixed (s : Str) (h : '?' ∉ s) :
    NormalizeProfileURL (NormalizeProfileURL s) = NormalizeProfileURL s := by
  have h2 : '?' ∉ NormalizeProfileURL s := NormalizeProfileURL_no_query s
  rw [NormalizeProfileURL_of_no_query _ h2]
  rw [NormalizeProfileURL_of_no_query s h] at *
  generalize hsub : "/in/".toList = sub at *
  have hsl : sub.length = 4 := by rw [← hsub]; rfl
  have hsn : sub ≠ [] := by rw [← hsub]; simp
  by_cases hi : Index s sub = -1
  · simp only [hi, if_true]
  · simp only [hi, if_false]
    rcases IndexFrom_range sub s 0 with h1 | ⟨h1, _⟩
    · exact absurd h1 hi
    · obtain ⟨k, hk⟩ : ∃ k : Nat, Index s sub = ((0 : Nat) : Int) + k :=
        ⟨(Index s sub).toNat, by unfold Index; push_cast; omega⟩
      have hlen := IndexFrom_length sub s 0 k hk
      have hk' : Index s sub = (k : Int) := by rw [hk]; simp
      have e4 : ((k : Int) + 4).toNat = k + 4 := by omega
      rw [hk', e4]
      have hl : (s.take (k + 4)).length = k + 4 := by
        rw [List.length_take]
        omega
      have hidx : Index (s.take (k + 4) ++ Trim (s.drop (k + 4)) "/".toList) sub = (k : Int) := by
        have := IndexFrom_take_congr sub hsn s
          (s.take (k + 4) ++ Trim (s.drop (k + 4)) "/".toList) 0 k hk
          (by rw [hsl, List.take_left' hl])
        unfold Index
        rw [this]
        simp
      have hne : ¬ ((k : Int) = -1) := by omega
      rw [hidx, if_neg hne, e4, List.take_left' hl, List.drop_left' hl, Trim_idempotent]

/-- C28: `NormalizeProfileURL` is idempotent: applying it to one of its own
results gives that result again. -/
theorem NormalizeProfileURL_idempotent (raw : Str) :
    NormalizeProfileURL (NormalizeProfileURL raw) = NormalizeProfileURL raw := by
  rw [NormalizeProfileURL_head raw]
  exact NormalizeProfileURL_fixed _ (Split_head_no_sep raw '?')

/-! ## The location of a card -/

/-- The comma alternative of the location expression: `Lisboa, PT` is matched by
the expression of `scraper.go` and not by the one of `engine.go`. -/
theorem rxLocation_lisboa :
    jsTest rxLocationEngine "Lisboa, PT".toList = false ∧
      jsTest rxLocationScraper "Lisboa, PT".toList = true := by
  constructor <;> decide

end GoLinkedin
